import Mathlib

/-!
Verification of the winappdbg snapshot/reconciliation engine
(src/winappdbg/process.py) against its specification.

The Python code is shallowly embedded: every OS call is recorded as an
`OsAction` in a trace, OS behaviour that the code merely observes
(enumeration results, `VirtualQueryEx` answers, the address granted by
`VirtualAllocEx`, read/write success) is passed in as an oracle argument,
and Python exceptions become explicit error values.
-/

set_option autoImplicit false

namespace WinAppDbg

/-! ### Win32 constants

Numeric values of the Windows API constants re-exported by the `win32`
wrapper package (the wrapper itself is not under src/; the values are the
documented Windows ones and only their distinctness matters below). -/

def MEM_COMMIT : Nat := 0x1000

def MEM_RESERVE : Nat := 0x2000

def MEM_DECOMMIT : Nat := 0x4000

def MEM_RELEASE : Nat := 0x8000

def MEM_PRIVATE : Nat := 0x20000

def MEM_MAPPED : Nat := 0x40000

def MEM_IMAGE : Nat := 0x1000000

def PAGE_NOACCESS : Nat := 0x01

def PAGE_READONLY : Nat := 0x02

def PAGE_READWRITE : Nat := 0x04

def PAGE_WRITECOPY : Nat := 0x08

def PAGE_EXECUTE : Nat := 0x10

def PAGE_EXECUTE_READ : Nat := 0x20

def PAGE_EXECUTE_READWRITE : Nat := 0x40

def PAGE_EXECUTE_WRITECOPY : Nat := 0x80

def PAGE_GUARD : Nat := 0x100

def PROCESS_VM_OPERATION : Nat := 0x08

def PROCESS_VM_READ : Nat := 0x10

def PROCESS_VM_WRITE : Nat := 0x20

def PROCESS_SUSPEND_RESUME : Nat := 0x800

def PROCESS_QUERY_INFORMATION : Nat := 0x400

/-- Modelled from the spec: `MemoryAddresses.pageSize` lives in `util.py`,
which is not under src/.  The spec's scenario (§8) uses 0x1000-byte pages. -/
def pageSize : Nat := 0x1000

/-! ### Memory regions -/

/-- Modelled from the spec (§3): a region's State is one of Free, Reserved,
Committed.  The `win32.MemoryBasicInformation` helper class that carries it
is not under src/. -/
inductive MemState where
  | free
  | reserved
  | committed
deriving DecidableEq, Repr

/-- A captured or queried memory region.  `Typ` is the `Type` field of
`MEMORY_BASIC_INFORMATION` (0 for free regions, otherwise `MEM_PRIVATE`,
`MEM_MAPPED` or `MEM_IMAGE`); `content` is the optional byte payload a
snapshot region carries. -/
structure MemoryBasicInformation where
  BaseAddress : Nat
  RegionSize : Nat
  State : MemState
  Protect : Nat
  Typ : Nat
  content : Option (List Nat)
deriving DecidableEq, Repr

/-- Modelled from the spec: `win32.MemoryBasicInformation.is_free` is not
under src/; it tests the Free state. -/
def MemoryBasicInformation.is_free (m : MemoryBasicInformation) : Bool :=
  m.State = MemState.free

/-- Modelled from the spec: `win32.MemoryBasicInformation.is_reserved` is not
under src/; it tests the Reserved state. -/
def MemoryBasicInformation.is_reserved (m : MemoryBasicInformation) : Bool :=
  m.State = MemState.reserved

/-- Modelled from the spec: `win32.MemoryBasicInformation.is_commited` is not
under src/; it tests the Committed state. -/
def MemoryBasicInformation.is_commited (m : MemoryBasicInformation) : Bool :=
  m.State = MemState.committed

/-- Modelled from the spec: a snapshot region "optionally carrying captured
byte content (only if the region had content at capture time)" (§3);
`iter_memory_snapshot` stores the bytes in `content` exactly for such
regions and `None` otherwise, so at restore time `has_content` is the
presence of a payload. -/
def MemoryBasicInformation.has_content (m : MemoryBasicInformation) : Bool :=
  m.content.isSome

/-- Modelled from the spec (§3, §4.4): readable means committed, with a
protection granting read access and neither guard nor no-access bits
(`win32.MemoryBasicInformation.is_readable` is not under src/). -/
def MemoryBasicInformation.is_readable (m : MemoryBasicInformation) : Bool :=
  m.is_commited &&
    (m.Protect &&& (PAGE_GUARD ||| PAGE_NOACCESS) == 0) &&
    (m.Protect &&& (PAGE_READONLY ||| PAGE_READWRITE ||| PAGE_WRITECOPY |||
        PAGE_EXECUTE_READ ||| PAGE_EXECUTE_READWRITE ||| PAGE_EXECUTE_WRITECOPY) != 0)

/-! ### OS call traces -/

/-- One OS call made by the memory snapshot/restore engine. -/
inductive OsAction where
  | openProcess (access : Nat)
  | suspendProcess
  | resumeProcess
  | virtualAllocEx (addr size flags protect : Nat)
  | freeAddress (addr : Nat)
  | virtualFreeEx (addr size flags : Nat)
  | virtualProtectEx (addr size protect : Nat)
  | pokeBytes (addr : Nat) (data : List Nat)
  | writeBytes (addr : Nat) (data : List Nat)
deriving DecidableEq, Repr

/-- Memory-state changing calls (`VirtualAllocEx`, `VirtualFreeEx`, and the
`Process.free` issued on a misplaced allocation). -/
def isStateChangeAction : OsAction → Bool
  | .virtualAllocEx _ _ _ _ => true
  | .freeAddress _ => true
  | .virtualFreeEx _ _ _ => true
  | _ => false

/-- Protection changing calls. -/
def isProtectAction : OsAction → Bool
  | .virtualProtectEx _ _ _ => true
  | _ => false

/-- Memory content writing calls (`Process.poke` / `Process.write`). -/
def isWriteAction : OsAction → Bool
  | .pokeBytes _ _ => true
  | .writeBytes _ _ => true
  | _ => false

/-! ### `Process.__restore_mbi` -/

/-- The "Restore the region state." part of `Process.__restore_mbi`
(src/winappdbg/process.py): the nested `is_free`/`is_reserved`/`is_commited`
branches.  `allocRet` is the oracle for the address the OS returns from the
single `VirtualAllocEx` call a branch can make.  Returns the OS calls made,
`true` when the Python code raises (the `RuntimeError` on a mismatched
allocation address), and the value of `new_mbi.Protect` after the step (the
allocation branches write `new_mbi.Protect = old_mbi.Protect` on success,
"permissions already restored"). -/
def restoreStateStep (allocRet : Nat) (new_mbi old_mbi : MemoryBasicInformation) :
    List OsAction × Bool × Nat :=
  if new_mbi.State ≠ old_mbi.State then
    if new_mbi.is_free then
      if old_mbi.is_reserved then
        -- Free -> Reserved
        if allocRet ≠ old_mbi.BaseAddress then
          ([OsAction.virtualAllocEx old_mbi.BaseAddress old_mbi.RegionSize
              MEM_RESERVE old_mbi.Protect,
            OsAction.freeAddress allocRet], true, new_mbi.Protect)
        else
          ([OsAction.virtualAllocEx old_mbi.BaseAddress old_mbi.RegionSize
              MEM_RESERVE old_mbi.Protect], false, old_mbi.Protect)
      else
        -- Free -> Commited
        if allocRet ≠ old_mbi.BaseAddress then
          ([OsAction.virtualAllocEx old_mbi.BaseAddress old_mbi.RegionSize
              (MEM_RESERVE ||| MEM_COMMIT) old_mbi.Protect,
            OsAction.freeAddress allocRet], true, new_mbi.Protect)
        else
          ([OsAction.virtualAllocEx old_mbi.BaseAddress old_mbi.RegionSize
              (MEM_RESERVE ||| MEM_COMMIT) old_mbi.Protect], false, old_mbi.Protect)
    else if new_mbi.is_reserved then
      if old_mbi.is_commited then
        -- Reserved -> Commited
        if allocRet ≠ old_mbi.BaseAddress then
          ([OsAction.virtualAllocEx old_mbi.BaseAddress old_mbi.RegionSize
              MEM_COMMIT old_mbi.Protect,
            OsAction.freeAddress allocRet], true, new_mbi.Protect)
        else
          ([OsAction.virtualAllocEx old_mbi.BaseAddress old_mbi.RegionSize
              MEM_COMMIT old_mbi.Protect], false, old_mbi.Protect)
      else
        -- Reserved -> Free
        ([OsAction.virtualFreeEx old_mbi.BaseAddress old_mbi.RegionSize MEM_RELEASE],
          false, new_mbi.Protect)
    else
      if old_mbi.is_reserved then
        -- Commited -> Reserved
        ([OsAction.virtualFreeEx old_mbi.BaseAddress old_mbi.RegionSize MEM_DECOMMIT],
          false, new_mbi.Protect)
      else
        -- Commited -> Free
        ([OsAction.virtualFreeEx old_mbi.BaseAddress old_mbi.RegionSize
            (MEM_DECOMMIT ||| MEM_RELEASE)], false, new_mbi.Protect)
  else
    ([], false, new_mbi.Protect)

/-- The "Restore the region permissions." step of `Process.__restore_mbi`:
`curProtect` is `new_mbi.Protect` as left by the state step. -/
def restoreProtectStep (old_mbi : MemoryBasicInformation) (curProtect : Nat) :
    List OsAction :=
  if old_mbi.is_commited && old_mbi.Protect ≠ curProtect then
    [OsAction.virtualProtectEx old_mbi.BaseAddress old_mbi.RegionSize old_mbi.Protect]
  else []

/-- The "Restore the region data." step of `Process.__restore_mbi`: content
is written through the lenient `poke` when `old_mbi.Type != 0` and
restoring mapped files was not skipped, and through the strict `write` when
`old_mbi.Type == 0`. -/
def restoreContentStep (old_mbi : MemoryBasicInformation) (bSkipMappedFiles : Bool) :
    List OsAction :=
  if old_mbi.has_content then
    match old_mbi.content with
    | some data =>
      if old_mbi.Typ ≠ 0 then
        if ¬ bSkipMappedFiles then [OsAction.pokeBytes old_mbi.BaseAddress data]
        else []
      else [OsAction.writeBytes old_mbi.BaseAddress data]
    | none => []
  else []

/-- The body of the `try:` block of `Process.__restore_mbi`: the three steps
in sequence, an exception in the state step skipping the later ones. -/
def restoreMbiTry (allocRet : Nat) (new_mbi old_mbi : MemoryBasicInformation)
    (bSkipMappedFiles : Bool) : List OsAction × Bool :=
  match restoreStateStep allocRet new_mbi old_mbi with
  | (stateActs, true, _) => (stateActs, true)
  | (stateActs, false, curProtect) =>
    (stateActs ++ restoreProtectStep old_mbi curProtect
      ++ restoreContentStep old_mbi bSkipMappedFiles, false)

/-- `Process.__restore_mbi` including its `try/except`: with `bSkipOnError`
the exception is converted into a warning and does not propagate. -/
def restore_mbi (allocRet : Nat) (new_mbi old_mbi : MemoryBasicInformation)
    (bSkipMappedFiles bSkipOnError : Bool) : List OsAction × Bool :=
  match restoreMbiTry allocRet new_mbi old_mbi bSkipMappedFiles with
  | (tr, err) => (tr, err && !bSkipOnError)

/-! ### The spec's transition table (§4.5), written from the spec's words -/

/-- The state-transition actions prescribed by the spec's table, old =
captured/desired state, new = current observed state.  "At the exact
captured address" is address-fixed allocation: when the OS honours a
different address the misplaced allocation is freed and the restore fails
loudly. -/
def specTransitionActions (allocRet : Nat) (new_mbi old_mbi : MemoryBasicInformation) :
    List OsAction :=
  match new_mbi.State, old_mbi.State with
  | MemState.free, MemState.reserved =>
    OsAction.virtualAllocEx old_mbi.BaseAddress old_mbi.RegionSize MEM_RESERVE old_mbi.Protect
      :: (if allocRet ≠ old_mbi.BaseAddress then [OsAction.freeAddress allocRet] else [])
  | MemState.free, MemState.committed =>
    OsAction.virtualAllocEx old_mbi.BaseAddress old_mbi.RegionSize
        (MEM_RESERVE ||| MEM_COMMIT) old_mbi.Protect
      :: (if allocRet ≠ old_mbi.BaseAddress then [OsAction.freeAddress allocRet] else [])
  | MemState.reserved, MemState.committed =>
    OsAction.virtualAllocEx old_mbi.BaseAddress old_mbi.RegionSize MEM_COMMIT old_mbi.Protect
      :: (if allocRet ≠ old_mbi.BaseAddress then [OsAction.freeAddress allocRet] else [])
  | MemState.reserved, MemState.free =>
    [OsAction.virtualFreeEx old_mbi.BaseAddress old_mbi.RegionSize MEM_RELEASE]
  | MemState.committed, MemState.reserved =>
    [OsAction.virtualFreeEx old_mbi.BaseAddress old_mbi.RegionSize MEM_DECOMMIT]
  | MemState.committed, MemState.free =>
    [OsAction.virtualFreeEx old_mbi.BaseAddress old_mbi.RegionSize (MEM_DECOMMIT ||| MEM_RELEASE)]
  | _, _ => []

/-- Per the spec's table, the restore of a region fails exactly when an
address-fixed allocation was required and the OS granted another address. -/
def specTransitionFails (allocRet : Nat) (new_mbi old_mbi : MemoryBasicInformation) : Bool :=
  match new_mbi.State, old_mbi.State with
  | MemState.free, MemState.reserved => allocRet ≠ old_mbi.BaseAddress
  | MemState.free, MemState.committed => allocRet ≠ old_mbi.BaseAddress
  | MemState.reserved, MemState.committed => allocRet ≠ old_mbi.BaseAddress
  | _, _ => false

/-- The region's current protection once the state transition has been
applied: a successful allocation already carries the captured protection,
otherwise the observed protection still stands. -/
def specCurrentProtect (new_mbi old_mbi : MemoryBasicInformation) : Nat :=
  match new_mbi.State, old_mbi.State with
  | MemState.free, MemState.reserved => old_mbi.Protect
  | MemState.free, MemState.committed => old_mbi.Protect
  | MemState.reserved, MemState.committed => old_mbi.Protect
  | _, _ => new_mbi.Protect

/-- "After state transition, if the captured region was committed and its
protection differs from current, reprotect to the captured value" — and
nothing at all once the transition has failed. -/
def specReprotectActions (allocRet : Nat) (new_mbi old_mbi : MemoryBasicInformation) :
    List OsAction :=
  if specTransitionFails allocRet new_mbi old_mbi then []
  else if old_mbi.is_commited && old_mbi.Protect ≠ specCurrentProtect new_mbi old_mbi then
    [OsAction.virtualProtectEx old_mbi.BaseAddress old_mbi.RegionSize old_mbi.Protect]
  else []

/-! ### `Process.restore_memory_snapshot` -/

/-- One element of the `snapshot` argument: either a well-formed region
descriptor (a `win32.MemoryBasicInformation`) or an object of the wrong
shape. -/
inductive SnapshotItem where
  | valid (mbi : MemoryBasicInformation)
  | malformed
deriving DecidableEq, Repr

/-- The `snapshot` argument itself: either not a list at all (for example a
generator), or a list of items. -/
inductive SnapshotArg where
  | notAList
  | aList (items : List SnapshotItem)
deriving DecidableEq, Repr

/-- A Python exception escaping `restore_memory_snapshot`. -/
inductive PyError where
  | typeError
  | runtimeError
deriving DecidableEq, Repr

/-- The validation at the top of `restore_memory_snapshot`:
`not snapshot or not isinstance(snapshot, list) or
not isinstance(snapshot[0], win32.MemoryBasicInformation)`. -/
def snapshotTypeOk : SnapshotArg → Bool
  | .notAList => false
  | .aList [] => false
  | .aList (SnapshotItem.malformed :: _) => false
  | .aList (SnapshotItem.valid _ :: _) => true

/-- The page-by-page loop of `restore_memory_snapshot` for a captured
region whose current base/size no longer match: single-page-sized copies of
the two descriptors walk the overlap, an (unswallowed) error aborting the
walk. -/
def restorePageLoop (allocRet : Nat → Nat) (new0 old0 : MemoryBasicInformation)
    (bSkipMappedFiles bSkipOnError : Bool) (finish : Nat) (address : Nat) :
    List OsAction × Bool :=
  if h : address < finish then
    let r := restore_mbi (allocRet address)
      { new0 with BaseAddress := address, RegionSize := pageSize }
      { old0 with BaseAddress := address, RegionSize := pageSize }
      bSkipMappedFiles bSkipOnError
    if r.2 then r
    else
      let rest := restorePageLoop allocRet new0 old0 bSkipMappedFiles bSkipOnError finish
        (address + pageSize)
      (r.1 ++ rest.1, rest.2)
  else ([], false)
termination_by finish - address
decreasing_by simp [pageSize]; omega

/-- One iteration of the `for old_mbi in snapshot` loop: re-query the
current state, restore directly when base and size still match, otherwise
restore page by page over the overlap.  A malformed element raises
(attribute lookup on a non-descriptor) before any OS call for it. -/
def restoreRegion (mquery : Nat → MemoryBasicInformation) (allocRet : Nat → Nat)
    (bSkipMappedFiles bSkipOnError : Bool) : SnapshotItem → List OsAction × Bool
  | .malformed => ([], true)
  | .valid old_mbi =>
    let new_mbi := mquery old_mbi.BaseAddress
    if new_mbi.BaseAddress = old_mbi.BaseAddress ∧ new_mbi.RegionSize = old_mbi.RegionSize then
      restore_mbi (allocRet old_mbi.BaseAddress) new_mbi old_mbi
        bSkipMappedFiles bSkipOnError
    else
      let old_start := old_mbi.BaseAddress
      let old_end := old_start + old_mbi.RegionSize
      let new_start := new_mbi.BaseAddress
      let new_end := new_start + new_mbi.RegionSize
      let start := if old_start > new_start then old_start else new_start
      let finish := if old_end < new_end then old_end else new_end
      restorePageLoop allocRet new_mbi old_mbi bSkipMappedFiles bSkipOnError finish start

/-- The `for old_mbi in snapshot` loop: an (unswallowed) error aborts the
remaining regions. -/
def restoreLoop (mquery : Nat → MemoryBasicInformation) (allocRet : Nat → Nat)
    (bSkipMappedFiles bSkipOnError : Bool) : List SnapshotItem → List OsAction × Bool
  | [] => ([], false)
  | item :: rest =>
    match restoreRegion mquery allocRet bSkipMappedFiles bSkipOnError item with
    | (tr, true) => (tr, true)
    | (tr, false) =>
      match restoreLoop mquery allocRet bSkipMappedFiles bSkipOnError rest with
      | (tr2, err2) => (tr ++ tr2, err2)

/-- The handle rights `restore_memory_snapshot` requests. -/
def RESTORE_ACCESS : Nat :=
  PROCESS_VM_WRITE ||| PROCESS_VM_OPERATION ||| PROCESS_SUSPEND_RESUME
    ||| PROCESS_QUERY_INFORMATION

/-- Shallow embedding of `Process.restore_memory_snapshot`
(src/winappdbg/process.py): validate the argument shape, get a handle,
suspend, restore each captured region, and resume in the `finally:` block
so that a propagating exception still resumes the target. -/
def restore_memory_snapshot (mquery : Nat → MemoryBasicInformation)
    (allocRet : Nat → Nat) (arg : SnapshotArg) (bSkipMappedFiles bSkipOnError : Bool) :
    List OsAction × Option PyError :=
  if snapshotTypeOk arg then
    match arg with
    | .notAList => ([], some PyError.typeError)
    | .aList items =>
      match restoreLoop mquery allocRet bSkipMappedFiles bSkipOnError items with
      | (tr, err) =>
        (OsAction.openProcess RESTORE_ACCESS :: OsAction.suspendProcess :: tr
            ++ [OsAction.resumeProcess],
          if err then some PyError.runtimeError else none)
  else ([], some PyError.typeError)

/-- A current-state oracle answering "free region of one page here" at
every address. -/
def c3Mquery : Nat → MemoryBasicInformation := fun a =>
  { BaseAddress := a, RegionSize := 0x1000, State := MemState.free, Protect := 0,
    Typ := 0, content := none }

/-- A one-region snapshot whose restore fails loudly: the captured region is
reserved, the current state is free, and the allocation oracle grants
address 0, so the address-fixed allocation raises. -/
def c3Arg : SnapshotArg := SnapshotArg.aList [SnapshotItem.valid
  { BaseAddress := 0x20000, RegionSize := 0x1000, State := MemState.reserved,
    Protect := PAGE_READWRITE, Typ := 0, content := none }]

/-- A snapshot list whose first element is a well-formed descriptor for a
committed private page (current state free, so restoring it allocates) and
whose second element is malformed. -/
def c9Snapshot : List SnapshotItem :=
  [SnapshotItem.valid
    { BaseAddress := 0x10000, RegionSize := 0x1000, State := MemState.committed,
      Protect := PAGE_READWRITE, Typ := 0, content := none },
   SnapshotItem.malformed]

/-! ### `Process.iter_memory_map` -/

/-- Modelled from the spec: `MemoryAddresses.align_address_to_page_start`
(util.py, not under src/) rounds an address down to its page boundary. -/
def align_address_to_page_start (a : Nat) : Nat := a - a % pageSize

/-- Modelled from the spec: `MemoryAddresses.align_address_to_page_end`
(util.py, not under src/) rounds an address up to the next page boundary. -/
def align_address_to_page_end (a : Nat) : Nat :=
  if a % pageSize = 0 then a else a - a % pageSize + pageSize

/-- Modelled from the spec: `MemoryAddresses.align_address_range` (util.py,
not under src/) rounds the range's lower bound down and upper bound up to
page boundaries ("rounding to page boundaries", §4.2/§4.5). -/
def align_address_range (minAddr maxAddr : Nat) : Nat × Nat :=
  (align_address_to_page_start minAddr, align_address_to_page_end maxAddr)

/-- What a `VirtualQueryEx` (`mquery`) call can answer: a region, the
`ERROR_INVALID_PARAMETER` that marks the end of the address space, or any
other `WindowsError` (which `iter_memory_map` re-raises). -/
inductive MQueryResult where
  | region (mbi : MemoryBasicInformation)
  | invalidParameter
  | osError
deriving DecidableEq, Repr

/-- Why the iteration stopped: the cursor passed the upper bound, a query
said "no region here" (end of address space), a query raised, or the
defensive non-increasing-cursor check fired. -/
inductive MapStop where
  | reachedEnd
  | noRegion
  | queryError
  | stalled
deriving DecidableEq, Repr

/-- The `while prevAddr < currentAddr < maxAddr` loop of
`Process.iter_memory_map` (src/winappdbg/process.py).  Over the integers
the initial guard `prevAddr = minAddr - 1 < minAddr = currentAddr` always
holds, and after a step the guard `prevAddr < currentAddr` is exactly
"the cursor advanced", so the loop is equivalently: while the cursor is
below the bound, query, yield, and continue only when the new cursor
`mbi.BaseAddress + mbi.RegionSize` is larger (otherwise the defensive
check terminates the iteration after the yield). -/
def iterMemoryMapLoop (mq : Nat → MQueryResult) (maxAddr : Nat) (currentAddr : Nat) :
    List MemoryBasicInformation × MapStop :=
  if h : currentAddr < maxAddr then
    match hq : mq currentAddr with
    | .invalidParameter => ([], MapStop.noRegion)
    | .osError => ([], MapStop.queryError)
    | .region mbi =>
      if h2 : currentAddr < mbi.BaseAddress + mbi.RegionSize then
        let rest := iterMemoryMapLoop mq maxAddr (mbi.BaseAddress + mbi.RegionSize)
        (mbi :: rest.1, rest.2)
      else ([mbi], MapStop.stalled)
  else ([], MapStop.reachedEnd)
termination_by maxAddr - currentAddr
decreasing_by omega

/-- Shallow embedding of `Process.iter_memory_map`: align the requested
range to page boundaries and walk it (the results of the generator are
collected into a list, together with the reason the iteration ended). -/
def iter_memory_map (mq : Nat → MQueryResult) (minAddr maxAddr : Nat) :
    List MemoryBasicInformation × MapStop :=
  iterMemoryMapLoop mq (align_address_range minAddr maxAddr).2
    (align_address_range minAddr maxAddr).1

/-- A query oracle with three pages of committed memory followed by the end
of the address space. -/
def c6Mquery : Nat → MQueryResult := fun a =>
  if a < 0x3000 then
    MQueryResult.region
      { BaseAddress := a, RegionSize := 0x1000, State := MemState.committed,
        Protect := PAGE_READWRITE, Typ := MEM_PRIVATE, content := none }
  else MQueryResult.invalidParameter

/-! ### `Process.get_handle` -/

/-- A process handle as held by a `Process` object: the access-rights mask
it was opened with, and an identity (`hid`) distinguishing one opened OS
handle from another. -/
structure ProcHandle where
  dwAccess : Nat
  hid : Nat
deriving DecidableEq, Repr

/-- An OS call made by the handle manager. -/
inductive HandleAction where
  | osOpen (access : Nat)
  | osClose (hid : Nat)
deriving DecidableEq, Repr

/-- Shallow embedding of `Process.open_handle` (src/winappdbg/process.py):
`OpenProcess` with the desired rights, then close the previously held
handle (if any), then store the new handle.  `fresh` is the identity of the
newly opened OS handle. -/
def open_handle (s : Option ProcHandle) (fresh : Nat) (dwDesiredAccess : Nat) :
    ProcHandle × List HandleAction :=
  (⟨dwDesiredAccess, fresh⟩,
    HandleAction.osOpen dwDesiredAccess ::
      (match s with
       | some h => [HandleAction.osClose h.hid]
       | none => []))

/-- Shallow embedding of `Process.get_handle` (src/winappdbg/process.py):
a held `hProcess` of `None` or `INVALID_HANDLE_VALUE` counts as no handle
(state `none`); otherwise the handle is reused when
`(dwAccess | dwDesiredAccess) == dwAccess` and reopened with the merged
rights when not.  Returns the handle the call returns (and leaves held)
together with the OS calls made. -/
def get_handle (s : Option ProcHandle) (fresh : Nat) (dwDesiredAccess : Nat) :
    ProcHandle × List HandleAction :=
  match s with
  | none => open_handle none fresh dwDesiredAccess
  | some h =>
    if (h.dwAccess ||| dwDesiredAccess) ≠ h.dwAccess then
      open_handle (some h) fresh (h.dwAccess ||| dwDesiredAccess)
    else (h, [])

/-- A sequence of `get_handle` calls on one `Process`, fresh OS handle
identities drawn from successive numbers. -/
def run_get_handle (s : Option ProcHandle) (fresh : Nat) :
    List Nat → Option ProcHandle × List HandleAction
  | [] => (s, [])
  | r :: rs =>
    let c := get_handle s fresh r
    let rest := run_get_handle (some c.1) (fresh + 1) rs
    (rest.1, c.2 ++ rest.2)

/-! ### `Process.peek` -/

/-- The `for mbi in self.get_memory_map(...)` loop of `Process.peek`: the
first region of the map lacking read access, if any. -/
def firstNotReadable : List MemoryBasicInformation → Option MemoryBasicInformation
  | [] => none
  | m :: rest => if m.is_readable then firstNotReadable rest else some m

/-- Shallow embedding of `Process.peek` (src/winappdbg/process.py).
`memoryMap` is the oracle for `get_memory_map(lpBaseAddress,
lpBaseAddress + nSize)`; `mem` gives the byte the target holds at each
address; `handleOk` is whether `get_handle` succeeds and `readOk` whether
the `ReadProcessMemory` call succeeds — a `WindowsError` from either is
caught, warned about, and turned into the bytes read so far (the empty
string).  The truncated size `mbi.BaseAddress - lpBaseAddress` is computed
over ℤ in Python; a negative value (first region unreadable, starting at or
below `lpBaseAddress`) fails the `nSize > 0` re-test exactly as its ℕ
truncation to 0 does. -/
def peek (memoryMap : List MemoryBasicInformation) (mem : Nat → Nat)
    (handleOk readOk : Bool) (lpBaseAddress nSize : Nat) : List Nat :=
  if 0 < nSize then
    if handleOk then
      let nSize' :=
        match firstNotReadable memoryMap with
        | some mbi => mbi.BaseAddress - lpBaseAddress
        | none => nSize
      if 0 < nSize' then
        if readOk then (List.range nSize').map (fun i => mem (lpBaseAddress + i))
        else []
      else []
    else []
  else []

/-- A two-page memory map: a readable read-write page followed by a guard
page. -/
def c8Map : List MemoryBasicInformation :=
  [{ BaseAddress := 0x10000, RegionSize := 0x1000, State := MemState.committed,
     Protect := PAGE_READWRITE, Typ := MEM_PRIVATE, content := none },
   { BaseAddress := 0x11000, RegionSize := 0x1000, State := MemState.committed,
     Protect := PAGE_READWRITE ||| PAGE_GUARD, Typ := MEM_PRIVATE, content := none }]

/-! ### The process snapshot container (`_ProcessContainer`) -/

/-- The mutable state of one `Process` object that the scan code touches:
its `fileName`, its thread IDs, its module bases, and its held handle,
plus an identity (`objId`) distinguishing one Python object from
another. -/
structure ProcEntry where
  objId : Nat
  fileName : Option String
  threads : List Nat
  modules : List Nat
  handleRights : Option Nat
deriving DecidableEq, Repr

/-- `Process(dwProcessId, fileName=fileName)`: a freshly constructed
Process object — no handle, no threads, no modules. -/
def newProcess (objId : Nat) (fileName : Option String) : ProcEntry :=
  { objId := objId, fileName := fileName, threads := [], modules := [],
    handleRights := none }

/-- The `_ProcessContainer.__processDict` dictionary, as an association
list keyed by process ID (Python dicts have unique keys; the operations
below preserve that, and the statements proved do not depend on it). -/
abbrev Container := List (Nat × ProcEntry)

/-- `dwProcessId in self.__processDict` -/
def containsKey (c : Container) (k : Nat) : Bool :=
  match c with
  | [] => false
  | e :: es => e.1 == k || containsKey es k

/-- `self.__processDict.get(dwProcessId)` / `self.__processDict[dwProcessId]` -/
def dictGet (c : Container) (k : Nat) : Option ProcEntry :=
  match c with
  | [] => none
  | e :: es => if e.1 = k then some e.2 else dictGet es k

/-- `self.__processDict[dwProcessId] = aProcess` (`_add_process`): replace
the entry of an existing key in place, append a new key. -/
def dictSet (c : Container) (k : Nat) (v : ProcEntry) : Container :=
  if containsKey c k then c.map (fun e => if e.1 = k then (k, v) else e)
  else c ++ [(k, v)]

/-- `self.__processDict.pop(dwProcessId)` (`_del_process`; the popped
Process object is cleared, which does not affect the container). -/
def dictDel (c : Container) (k : Nat) : Container :=
  match c with
  | [] => []
  | e :: es => if e.1 = k then dictDel es k else e :: dictDel es k

/-- Python's truthiness for an optional string (`if fileName:`): `None`
and the empty string are falsy. -/
def pyTruthy : Option String → Bool
  | none => false
  | some s => s != ""

/-- One `self._add_process(Process(pid))` of `scan_processes_fast`,
threading the next fresh object identity. -/
def fastAddStep (st : Container × Nat) (p : Nat) : Container × Nat :=
  (dictSet st.1 p (newProcess st.2 none), st.2 + 1)

/-- Shallow embedding of `_ProcessContainer.scan_processes_fast`
(src/winappdbg/process.py): compute the new and old pid sets, drop our own
pid from both, add a fresh Process for the newly found pids, delete the
missing ones.  `enumProcesses` is the oracle result of
`win32.EnumProcesses()`, `ourPid` is `GetCurrentProcessId()`, and `freshId`
numbers the Process objects this call constructs.  Python iterates the two
sets in unspecified order; additions of distinct fresh keys and deletions
of distinct keys commute, so the fixed left-to-right order is
equivalent. -/
def scan_processes_fast (enumProcesses : List Nat) (ourPid freshId : Nat)
    (c : Container) : Container :=
  let new_pids := enumProcesses.dedup.filter (fun p => p != ourPid)
  let old_pids := (c.map Prod.fst).dedup.filter (fun p => p != ourPid)
  let toAdd := new_pids.filter (fun p => ! old_pids.contains p)
  let toDel := old_pids.filter (fun p => ! new_pids.contains p)
  let c1 := (toAdd.foldl fastAddStep (c, freshId)).1
  toDel.foldl (fun acc p => dictDel acc p) c1

/-- The container, the shrinking `dead_pids` set, and the next fresh
object identity, threaded through the reconciliation loops. -/
structure ScanState where
  c : Container
  dead : List Nat
  nextId : Nat
deriving Repr

/-- One iteration of the process loop shared by
`scan_processes_and_threads` (Toolhelp `Process32First/Next`) and
`scan_processes` (`WTSEnumerateProcesses`), which have the same body: skip
our own pid, un-mark it as dead, create a new Process with the reported
filename when absent, and otherwise fill in the filename only if one was
reported and none is known (enrichment never overwrites). -/
def procScanStep (ourPid : Nat) (st : ScanState) (pe : Nat × Option String) :
    ScanState :=
  if pe.1 = ourPid then st
  else
    let dead' := st.dead.filter (fun p => p != pe.1)
    match dictGet st.c pe.1 with
    | none =>
      { c := dictSet st.c pe.1 (newProcess st.nextId pe.2), dead := dead',
        nextId := st.nextId + 1 }
    | some entry =>
      if pyTruthy pe.2 && ! pyTruthy entry.fileName then
        { st with
          c := dictSet st.c pe.1 ({ entry with fileName := pe.2 }),
          dead := dead' }
      else { st with dead := dead' }

/-- One iteration of the thread loop of `scan_processes_and_threads`: skip
threads owned by our own process, un-mark the owner as dead, create its
Process if it is missing, and record the thread ID if not yet known. -/
def threadScanStep (ourPid : Nat) (st : ScanState) (te : Nat × Nat) : ScanState :=
  if te.1 = ourPid then st
  else
    let dead' := st.dead.filter (fun p => p != te.1)
    match dictGet st.c te.1 with
    | none =>
      { c := dictSet st.c te.1 ({ newProcess st.nextId none with threads := [te.2] }),
        dead := dead', nextId := st.nextId + 1 }
    | some entry =>
      if te.2 ∈ entry.threads then { st with dead := dead' }
      else
        { st with
          c := dictSet st.c te.1 ({ entry with threads := entry.threads ++ [te.2] }),
          dead := dead' }

/-- Shallow embedding of `_ProcessContainer.scan_processes_and_threads`
(src/winappdbg/process.py): seed `dead_pids` with the known pids minus our
own, run the process loop and then the thread loop over the Toolhelp
snapshot (`procEnum`: pid and reported executable name; `threadEnum`:
owning pid and thread id), delete the pids still marked dead, and delete
from every surviving process the thread ids that no process reported this
cycle (`found_tids`). -/
def scan_processes_and_threads (procEnum : List (Nat × Option String))
    (threadEnum : List (Nat × Nat)) (ourPid freshId : Nat) (c : Container) :
    Container :=
  let st0 : ScanState :=
    ⟨c, (c.map Prod.fst).dedup.filter (fun p => p != ourPid), freshId⟩
  let st1 := procEnum.foldl (procScanStep ourPid) st0
  let st2 := threadEnum.foldl (threadScanStep ourPid) st1
  let found_tids := (threadEnum.filter (fun t => t.1 != ourPid)).map Prod.snd
  let c3 := st2.dead.foldl (fun acc p => dictDel acc p) st2.c
  c3.map (fun e =>
    (e.1, { e.2 with threads := e.2.threads.filter (fun t => found_tids.contains t) }))

/-- Shallow embedding of `_ProcessContainer.scan_processes`
(src/winappdbg/process.py), the Remote Desktop (WTS) session source: the
same reconciliation loop over `WTSEnumerateProcesses` output (pid and
process name), then deletion of the pids it did not report. -/
def scan_processes (sessionEnum : List (Nat × Option String)) (ourPid freshId : Nat)
    (c : Container) : Container :=
  let st0 : ScanState :=
    ⟨c, (c.map Prod.fst).dedup.filter (fun p => p != ourPid), freshId⟩
  let st1 := sessionEnum.foldl (procScanStep ourPid) st0
  st1.dead.foldl (fun acc p => dictDel acc p) st1.c

/-- Shallow embedding of `_ProcessContainer.scan_modules`: try
`Process.scan_modules()` on every process, tolerating per-process
`WindowsError` failures and reporting completeness.  The effect of one
successful per-process module scan (a Toolhelp module walk) is abstracted
as the `moduleScan` oracle; no claim concerns the module lists
themselves. -/
def scan_modules (modulesOk : Nat → Bool) (moduleScan : Nat → List Nat)
    (c : Container) : Container × Bool :=
  (c.map (fun e => (e.1, if modulesOk e.1 then { e.2 with modules := moduleScan e.1 }
      else e.2)),
   c.all (fun e => modulesOk e.1))

/-- Shallow embedding of `_ProcessContainer.scan_process_filenames`: ask
each process for its image pathname (`filenameRes` oracle; `none` also
covers a raised exception), keep the old name and clear the completeness
flag when nothing (truthy) came back. -/
def scan_process_filenames (filenameRes : Nat → Option String) (c : Container) :
    Container × Bool :=
  (c.map (fun e => (e.1, if pyTruthy (filenameRes e.1)
      then { e.2 with fileName := filenameRes e.1 } else e.2)),
   c.all (fun e => pyTruthy (filenameRes e.1)))

/-- The `try:`/`except:` body of `scan()` down to the end of the fallback:
the Toolhelp source when it works (`has_threads` stays `True`), otherwise
the fast source followed by the per-process thread backfill, which is
attempted only for processes that already have recorded thread ids and
clears `has_threads` on a per-process `WindowsError`.  Returns the
container and `has_threads`. -/
def scanStep1 (ourPid freshId : Nat)
    (toolhelp : Option (List (Nat × Option String) × List (Nat × Nat)))
    (enumProcesses : List Nat)
    (backfillOk : Nat → Bool) (backfillThreads : Nat → List Nat)
    (c : Container) : Container × Bool :=
  match toolhelp with
  | some (procEnum, threadEnum) =>
    (scan_processes_and_threads procEnum threadEnum ourPid freshId c, true)
  | none =>
    let cF := scan_processes_fast enumProcesses ourPid freshId c
    (cF.map (fun e =>
        (e.1, if ! e.2.threads.isEmpty && backfillOk e.1
        then { e.2 with threads := backfillThreads e.1 } else e.2)),
     cF.all (fun e => e.2.threads.isEmpty || backfillOk e.1))

/-- Shallow embedding of `_ProcessContainer.scan` (src/winappdbg/process.py).
`toolhelp` is `none` when `scan_processes_and_threads` raises (then the
fallback runs: `scan_processes_fast`, then a per-process thread backfill
attempted only for processes that already have recorded thread ids, a
`WindowsError` there clearing `has_threads`; `backfillOk`/`backfillThreads`
are the oracles for `Process.scan_threads`).  The session source
`scan_processes` always runs afterwards (the `finally:` block), then the
module scan and the filename completion.  Returns the container and the
completeness flag `has_threads and has_modules and has_full_names`. -/
def scan (ourPid freshId : Nat)
    (toolhelp : Option (List (Nat × Option String) × List (Nat × Nat)))
    (enumProcesses : List Nat)
    (backfillOk : Nat → Bool) (backfillThreads : Nat → List Nat)
    (sessionEnum : List (Nat × Option String))
    (modulesOk : Nat → Bool) (moduleScan : Nat → List Nat)
    (filenameRes : Nat → Option String)
    (c : Container) : Container × Bool :=
  let step1 := scanStep1 ourPid freshId toolhelp enumProcesses backfillOk
    backfillThreads c
  let c2 := scan_processes sessionEnum ourPid freshId step1.1
  let step3 := scan_modules modulesOk moduleScan c2
  let step4 := scan_process_filenames filenameRes step3.1
  (step4.1, step1.2 && step3.2 && step4.2)

/-- The container used by the C10 witness: one tracked process with a
cached filename, threads, modules, and a held handle. -/
def c10Container : Container :=
  [(1, { objId := 9, fileName := some "x.exe", threads := [4, 5], modules := [7],
         handleRights := some 0x10 })]

/-! ### Theorems -/

theorem restoreStateStep_acts (allocRet : Nat) (new_mbi old_mbi : MemoryBasicInformation) :
    (restoreStateStep allocRet new_mbi old_mbi).1
      = specTransitionActions allocRet new_mbi old_mbi := by
  cases hn : new_mbi.State <;> cases ho : old_mbi.State <;>
    simp [restoreStateStep, specTransitionActions, MemoryBasicInformation.is_free,
      MemoryBasicInformation.is_reserved, MemoryBasicInformation.is_commited, hn, ho] <;>
    split_ifs <;> simp

theorem restoreStateStep_err (allocRet : Nat) (new_mbi old_mbi : MemoryBasicInformation) :
    (restoreStateStep allocRet new_mbi old_mbi).2.1
      = specTransitionFails allocRet new_mbi old_mbi := by
  cases hn : new_mbi.State <;> cases ho : old_mbi.State <;>
    simp [restoreStateStep, specTransitionFails, MemoryBasicInformation.is_free,
      MemoryBasicInformation.is_reserved, MemoryBasicInformation.is_commited, hn, ho] <;>
    split_ifs <;> simp_all

theorem restoreStateStep_protect (allocRet : Nat) (new_mbi old_mbi : MemoryBasicInformation)
    (h : specTransitionFails allocRet new_mbi old_mbi = false) :
    (restoreStateStep allocRet new_mbi old_mbi).2.2 = specCurrentProtect new_mbi old_mbi := by
  cases hn : new_mbi.State <;> cases ho : old_mbi.State <;>
    rw [specTransitionFails, hn, ho] at h <;>
    simp [restoreStateStep, specCurrentProtect, MemoryBasicInformation.is_free,
      MemoryBasicInformation.is_reserved, MemoryBasicInformation.is_commited, hn, ho] <;>
    simp_all

theorem specTransitionActions_filter_state (allocRet : Nat)
    (new_mbi old_mbi : MemoryBasicInformation) :
    (specTransitionActions allocRet new_mbi old_mbi).filter isStateChangeAction
      = specTransitionActions allocRet new_mbi old_mbi := by
  cases hn : new_mbi.State <;> cases ho : old_mbi.State <;>
    simp [specTransitionActions, hn, ho, isStateChangeAction]

theorem specTransitionActions_filter_protect (allocRet : Nat)
    (new_mbi old_mbi : MemoryBasicInformation) :
    (specTransitionActions allocRet new_mbi old_mbi).filter isProtectAction = [] := by
  cases hn : new_mbi.State <;> cases ho : old_mbi.State <;>
    simp [specTransitionActions, hn, ho, isProtectAction]

theorem specTransitionActions_filter_write (allocRet : Nat)
    (new_mbi old_mbi : MemoryBasicInformation) :
    (specTransitionActions allocRet new_mbi old_mbi).filter isWriteAction = [] := by
  cases hn : new_mbi.State <;> cases ho : old_mbi.State <;>
    simp [specTransitionActions, hn, ho, isWriteAction]

theorem restoreProtectStep_filter_protect (old_mbi : MemoryBasicInformation) (c : Nat) :
    (restoreProtectStep old_mbi c).filter isProtectAction = restoreProtectStep old_mbi c := by
  unfold restoreProtectStep; split_ifs <;> simp [isProtectAction]

theorem restoreProtectStep_filter_state (old_mbi : MemoryBasicInformation) (c : Nat) :
    (restoreProtectStep old_mbi c).filter isStateChangeAction = [] := by
  unfold restoreProtectStep; split_ifs <;> simp [isStateChangeAction]

theorem restoreProtectStep_filter_write (old_mbi : MemoryBasicInformation) (c : Nat) :
    (restoreProtectStep old_mbi c).filter isWriteAction = [] := by
  unfold restoreProtectStep; split_ifs <;> simp [isWriteAction]

theorem restoreContentStep_filter_write (old_mbi : MemoryBasicInformation) (b : Bool) :
    (restoreContentStep old_mbi b).filter isWriteAction = restoreContentStep old_mbi b := by
  unfold restoreContentStep
  cases old_mbi.content <;>
    simp [MemoryBasicInformation.has_content] <;> split_ifs <;> simp [isWriteAction]

theorem restoreContentStep_filter_state (old_mbi : MemoryBasicInformation) (b : Bool) :
    (restoreContentStep old_mbi b).filter isStateChangeAction = [] := by
  unfold restoreContentStep
  cases old_mbi.content <;>
    simp [MemoryBasicInformation.has_content] <;> split_ifs <;> simp [isStateChangeAction]

theorem restoreContentStep_filter_protect (old_mbi : MemoryBasicInformation) (b : Bool) :
    (restoreContentStep old_mbi b).filter isProtectAction = [] := by
  unfold restoreContentStep
  cases old_mbi.content <;>
    simp [MemoryBasicInformation.has_content] <;> split_ifs <;> simp [isProtectAction]

theorem restoreMbiTry_eq (allocRet : Nat) (new_mbi old_mbi : MemoryBasicInformation)
    (bSkipMappedFiles : Bool) :
    restoreMbiTry allocRet new_mbi old_mbi bSkipMappedFiles
      = if specTransitionFails allocRet new_mbi old_mbi then
          (specTransitionActions allocRet new_mbi old_mbi, true)
        else
          (specTransitionActions allocRet new_mbi old_mbi
            ++ restoreProtectStep old_mbi (specCurrentProtect new_mbi old_mbi)
            ++ restoreContentStep old_mbi bSkipMappedFiles, false) := by
  have h1 := restoreStateStep_acts allocRet new_mbi old_mbi
  have h2 := restoreStateStep_err allocRet new_mbi old_mbi
  unfold restoreMbiTry
  rcases hss : restoreStateStep allocRet new_mbi old_mbi with ⟨acts, err, cur⟩
  rw [hss] at h1 h2
  simp only at h1 h2
  cases err with
  | true => simp [← h1, ← h2]
  | false =>
    have h3 := restoreStateStep_protect allocRet new_mbi old_mbi (by rw [← h2])
    rw [hss] at h3
    simp only at h3
    simp [← h1, ← h2, h3]

/-- C1: for every captured region, `__restore_mbi` (in the default
fail-loudly mode) performs exactly the state transition of the spec's table
— reserving / reserving-and-committing / committing at the exact captured
address with the captured protection, freeing the misplaced allocation and
raising when the OS grants a different address, releasing, decommitting, or
decommitting-and-releasing as the table prescribes, with no state-changing
call when the states already agree — and afterwards reprotects exactly the
committed captured regions whose captured protection differs from the
current one, state changes coming before reprotection before content
writes. -/
theorem restore_mbi_follows_transition_table (allocRet : Nat)
    (new_mbi old_mbi : MemoryBasicInformation) (bSkipMappedFiles : Bool) :
    (restore_mbi allocRet new_mbi old_mbi bSkipMappedFiles false).1.filter isStateChangeAction
        = specTransitionActions allocRet new_mbi old_mbi ∧
    (restore_mbi allocRet new_mbi old_mbi bSkipMappedFiles false).2
        = specTransitionFails allocRet new_mbi old_mbi ∧
    (restore_mbi allocRet new_mbi old_mbi bSkipMappedFiles false).1.filter isProtectAction
        = specReprotectActions allocRet new_mbi old_mbi ∧
    (restore_mbi allocRet new_mbi old_mbi bSkipMappedFiles false).1
        = (restore_mbi allocRet new_mbi old_mbi bSkipMappedFiles false).1.filter
            isStateChangeAction
          ++ (restore_mbi allocRet new_mbi old_mbi bSkipMappedFiles false).1.filter
            isProtectAction
          ++ (restore_mbi allocRet new_mbi old_mbi bSkipMappedFiles false).1.filter
            isWriteAction ∧
    (new_mbi.State = old_mbi.State →
      (restore_mbi allocRet new_mbi old_mbi bSkipMappedFiles false).1.filter
        isStateChangeAction = []) := by
  have htry := restoreMbiTry_eq allocRet new_mbi old_mbi bSkipMappedFiles
  unfold restore_mbi
  rw [htry]
  cases hfail : specTransitionFails allocRet new_mbi old_mbi with
  | true =>
    rw [if_pos rfl]
    refine ⟨specTransitionActions_filter_state _ _ _, by simp, ?_, ?_, ?_⟩
    · rw [specTransitionActions_filter_protect, specReprotectActions, hfail]
      simp
    · rw [specTransitionActions_filter_state, specTransitionActions_filter_protect,
        specTransitionActions_filter_write]
      simp
    · intro hst
      rw [specTransitionActions_filter_state]
      cases hn : new_mbi.State <;> cases ho : old_mbi.State <;>
        simp_all [specTransitionActions]
  | false =>
    rw [if_neg (by simp)]
    simp only [List.filter_append, Bool.and_false,
      specTransitionActions_filter_state, specTransitionActions_filter_protect,
      specTransitionActions_filter_write, restoreProtectStep_filter_protect,
      restoreProtectStep_filter_state, restoreProtectStep_filter_write,
      restoreContentStep_filter_write, restoreContentStep_filter_state,
      restoreContentStep_filter_protect, List.append_nil, List.nil_append]
    refine ⟨by simp, by simp, ?_, by simp, ?_⟩
    · rw [specReprotectActions, hfail]
      simp [restoreProtectStep]
    · intro hst
      cases hn : new_mbi.State <;> cases ho : old_mbi.State <;>
        simp_all [specTransitionActions]

theorem restore_mbi_follows_transition_table_witness :
    (restore_mbi 0x10000
      { BaseAddress := 0x10000, RegionSize := 0x1000, State := MemState.committed,
        Protect := PAGE_READWRITE, Typ := 0, content := none }
      { BaseAddress := 0x10000, RegionSize := 0x1000, State := MemState.committed,
        Protect := PAGE_NOACCESS, Typ := 0, content := none }
      true false).1.filter isStateChangeAction = [] :=
  (restore_mbi_follows_transition_table 0x10000
    { BaseAddress := 0x10000, RegionSize := 0x1000, State := MemState.committed,
      Protect := PAGE_READWRITE, Typ := 0, content := none }
    { BaseAddress := 0x10000, RegionSize := 0x1000, State := MemState.committed,
      Protect := PAGE_NOACCESS, Typ := 0, content := none }
    true).2.2.2.2 rfl

/-- C2 (code bug): with the default `bSkipMappedFiles=True`, restoring a
captured committed *private* region that carries content performs no OS
call at all — in particular its bytes are not written back — because the
content-restore step is gated on `old_mbi.Type != 0`, which also holds for
private (not mapped-file-backed) regions. -/
theorem restore_mbi_default_drops_private_content :
    restore_mbi 0x10000
      { BaseAddress := 0x10000, RegionSize := 0x1000, State := MemState.committed,
        Protect := PAGE_READWRITE, Typ := MEM_PRIVATE, content := none }
      { BaseAddress := 0x10000, RegionSize := 0x1000, State := MemState.committed,
        Protect := PAGE_READWRITE, Typ := MEM_PRIVATE, content := some [1, 2, 3] }
      true false = ([], false) := by decide

theorem restore_mbi_no_control_actions (allocRet : Nat)
    (new_mbi old_mbi : MemoryBasicInformation) (bSkipMappedFiles bSkipOnError : Bool) :
    OsAction.suspendProcess ∉ (restore_mbi allocRet new_mbi old_mbi
      bSkipMappedFiles bSkipOnError).1 ∧
    OsAction.resumeProcess ∉ (restore_mbi allocRet new_mbi old_mbi
      bSkipMappedFiles bSkipOnError).1 := by
  have h := restoreMbiTry_eq allocRet new_mbi old_mbi bSkipMappedFiles
  unfold restore_mbi
  rw [h]
  constructor <;> split_ifs <;>
    simp [specTransitionActions, restoreProtectStep, restoreContentStep] <;>
    cases hn : new_mbi.State <;> cases ho : old_mbi.State <;>
    cases old_mbi.content <;>
    simp_all <;> split_ifs <;> simp_all

set_option maxRecDepth 4000 in
theorem restorePageLoop_no_control_actions_fueled (allocRet : Nat → Nat)
    (new0 old0 : MemoryBasicInformation) (bSkipMappedFiles bSkipOnError : Bool)
    (finish : Nat) : ∀ fuel address, finish - address ≤ fuel →
    OsAction.suspendProcess ∉ (restorePageLoop allocRet new0 old0 bSkipMappedFiles
      bSkipOnError finish address).1 ∧
    OsAction.resumeProcess ∉ (restorePageLoop allocRet new0 old0 bSkipMappedFiles
      bSkipOnError finish address).1 := by
  intro fuel
  induction fuel with
  | zero =>
    intro address hle
    rw [restorePageLoop]
    rw [dif_neg (by omega)]
    simp
  | succ n ih =>
    intro address hle
    rw [restorePageLoop]
    by_cases hlt : address < finish
    · rw [dif_pos hlt]
      have h1 := restore_mbi_no_control_actions (allocRet address)
        { new0 with BaseAddress := address, RegionSize := pageSize }
        { old0 with BaseAddress := address, RegionSize := pageSize }
        bSkipMappedFiles bSkipOnError
      have hrec := ih (address + pageSize) (by simp only [pageSize] at *; omega)
      rcases hm : restore_mbi (allocRet address)
          { new0 with BaseAddress := address, RegionSize := pageSize }
          { old0 with BaseAddress := address, RegionSize := pageSize }
          bSkipMappedFiles bSkipOnError with ⟨tr, err⟩
      rw [hm] at h1
      rcases hr : restorePageLoop allocRet new0 old0 bSkipMappedFiles bSkipOnError
          finish (address + pageSize) with ⟨tr2, err2⟩
      rw [hr] at hrec
      cases err <;> simp_all
    · rw [dif_neg hlt]
      simp

theorem restorePageLoop_no_control_actions (allocRet : Nat → Nat)
    (new0 old0 : MemoryBasicInformation) (bSkipMappedFiles bSkipOnError : Bool)
    (finish address : Nat) :
    OsAction.suspendProcess ∉ (restorePageLoop allocRet new0 old0 bSkipMappedFiles
      bSkipOnError finish address).1 ∧
    OsAction.resumeProcess ∉ (restorePageLoop allocRet new0 old0 bSkipMappedFiles
      bSkipOnError finish address).1 :=
  restorePageLoop_no_control_actions_fueled allocRet new0 old0 bSkipMappedFiles
    bSkipOnError finish (finish - address) address le_rfl

theorem restoreRegion_no_control_actions (mquery : Nat → MemoryBasicInformation)
    (allocRet : Nat → Nat) (bSkipMappedFiles bSkipOnError : Bool) (item : SnapshotItem) :
    OsAction.suspendProcess ∉ (restoreRegion mquery allocRet bSkipMappedFiles
      bSkipOnError item).1 ∧
    OsAction.resumeProcess ∉ (restoreRegion mquery allocRet bSkipMappedFiles
      bSkipOnError item).1 := by
  cases item with
  | malformed => simp [restoreRegion]
  | valid old_mbi =>
    rw [restoreRegion]
    split_ifs
    · exact restore_mbi_no_control_actions _ _ _ _ _
    · exact restorePageLoop_no_control_actions _ _ _ _ _ _ _

theorem restoreLoop_no_control_actions (mquery : Nat → MemoryBasicInformation)
    (allocRet : Nat → Nat) (bSkipMappedFiles bSkipOnError : Bool)
    (items : List SnapshotItem) :
    OsAction.suspendProcess ∉ (restoreLoop mquery allocRet bSkipMappedFiles
      bSkipOnError items).1 ∧
    OsAction.resumeProcess ∉ (restoreLoop mquery allocRet bSkipMappedFiles
      bSkipOnError items).1 := by
  induction items with
  | nil => simp [restoreLoop]
  | cons item rest ih =>
    have h1 := restoreRegion_no_control_actions mquery allocRet bSkipMappedFiles
      bSkipOnError item
    rw [restoreLoop]
    rcases hr : restoreRegion mquery allocRet bSkipMappedFiles bSkipOnError item
      with ⟨tr, err⟩
    rw [hr] at h1
    cases err with
    | true => exact h1
    | false =>
      rcases hl : restoreLoop mquery allocRet bSkipMappedFiles bSkipOnError rest
        with ⟨tr2, err2⟩
      rw [hl] at ih
      simp_all

/-- C3: whenever the snapshot argument passes validation,
`restore_memory_snapshot` suspends the target before any region is touched
and resumes it as the very last action — the body between the two contains
no suspend/resume, and the shape holds for every outcome, in particular
when restoring a region raises an error that propagates to the caller. -/
theorem restore_snapshot_suspends_and_always_resumes
    (mquery : Nat → MemoryBasicInformation) (allocRet : Nat → Nat) (arg : SnapshotArg)
    (bSkipMappedFiles bSkipOnError : Bool) (h : snapshotTypeOk arg = true) :
    ∃ body : List OsAction,
      (restore_memory_snapshot mquery allocRet arg bSkipMappedFiles bSkipOnError).1
        = OsAction.openProcess RESTORE_ACCESS :: OsAction.suspendProcess :: body
          ++ [OsAction.resumeProcess] ∧
      OsAction.suspendProcess ∉ body ∧
      OsAction.resumeProcess ∉ body := by
  cases arg with
  | notAList => simp [snapshotTypeOk] at h
  | aList items =>
    have hb := restoreLoop_no_control_actions mquery allocRet bSkipMappedFiles
      bSkipOnError items
    rcases hl : restoreLoop mquery allocRet bSkipMappedFiles bSkipOnError items
      with ⟨tr, err⟩
    rw [hl] at hb
    refine ⟨tr, ?_, hb.1, hb.2⟩
    simp [restore_memory_snapshot, h, hl]

theorem restore_snapshot_suspends_and_always_resumes_witness :
    (restore_memory_snapshot c3Mquery (fun _ => 0) c3Arg true false).2
        = some PyError.runtimeError ∧
    ∃ body : List OsAction,
      (restore_memory_snapshot c3Mquery (fun _ => 0) c3Arg true false).1
        = OsAction.openProcess RESTORE_ACCESS :: OsAction.suspendProcess :: body
          ++ [OsAction.resumeProcess] ∧
      OsAction.suspendProcess ∉ body ∧
      OsAction.resumeProcess ∉ body :=
  ⟨by decide, restore_snapshot_suspends_and_always_resumes c3Mquery (fun _ => 0) c3Arg
    true false (by decide)⟩

/-- C9 counterexample: a snapshot list whose second element is malformed
passes the up-front validation (`snapshot[0]` is the only element checked),
and the restore then performs a state-changing OS call for the first region
before aborting with an error at the malformed element — the claim's
"rejected before any mutation begins" fails for this input. -/
theorem restore_snapshot_accepts_late_malformed :
    snapshotTypeOk (SnapshotArg.aList c9Snapshot) = true ∧
    (restore_memory_snapshot c3Mquery (fun a => a) (SnapshotArg.aList c9Snapshot)
        true false).2 = some PyError.runtimeError ∧
    (restore_memory_snapshot c3Mquery (fun a => a) (SnapshotArg.aList c9Snapshot)
        true false).1.filter isStateChangeAction ≠ [] := by decide

/-- C9 (amended): rejected up front — with a `TypeError` and no OS
interaction, hence no mutation, at all — are exactly the arguments that are
not a list, the empty list, and the lists whose first element is not a
region descriptor; a malformed element in a later position is not caught by
the validation. -/
theorem restore_snapshot_rejects_bad_head_before_any_effect
    (mquery : Nat → MemoryBasicInformation) (allocRet : Nat → Nat) (arg : SnapshotArg)
    (bSkipMappedFiles bSkipOnError : Bool) :
    (snapshotTypeOk arg = false ↔
      arg = SnapshotArg.notAList ∨ arg = SnapshotArg.aList [] ∨
        ∃ rest, arg = SnapshotArg.aList (SnapshotItem.malformed :: rest)) ∧
    (snapshotTypeOk arg = false →
      restore_memory_snapshot mquery allocRet arg bSkipMappedFiles bSkipOnError
        = ([], some PyError.typeError)) := by
  constructor
  · cases arg with
    | notAList => simp [snapshotTypeOk]
    | aList items =>
      cases items with
      | nil => simp [snapshotTypeOk]
      | cons hd tl => cases hd <;> simp [snapshotTypeOk]
  · intro hbad
    unfold restore_memory_snapshot
    rw [hbad]
    simp

theorem restore_snapshot_rejects_bad_head_before_any_effect_witness :
    restore_memory_snapshot c3Mquery (fun a => a) SnapshotArg.notAList true false
      = ([], some PyError.typeError) :=
  (restore_snapshot_rejects_bad_head_before_any_effect c3Mquery (fun a => a)
    SnapshotArg.notAList true false).2 (by decide)

theorem iterMemoryMapLoop_spec (mq : Nat → MQueryResult) (maxAddr : Nat)
    (hmq : ∀ a, a % pageSize = 0 → ∀ mbi, mq a = MQueryResult.region mbi →
      mbi.BaseAddress = a ∧ 0 < mbi.RegionSize ∧ mbi.RegionSize % pageSize = 0) :
    ∀ fuel currentAddr, maxAddr - currentAddr ≤ fuel → currentAddr % pageSize = 0 →
    List.Chain' (fun x y => y.BaseAddress = x.BaseAddress + x.RegionSize)
      (iterMemoryMapLoop mq maxAddr currentAddr).1 ∧
    (∀ first ∈ (iterMemoryMapLoop mq maxAddr currentAddr).1.head?,
      first.BaseAddress = currentAddr) ∧
    ((iterMemoryMapLoop mq maxAddr currentAddr).2 = MapStop.reachedEnd →
      ((iterMemoryMapLoop mq maxAddr currentAddr).1 = [] ∧ maxAddr ≤ currentAddr) ∨
      (∃ last ∈ (iterMemoryMapLoop mq maxAddr currentAddr).1.getLast?,
        maxAddr ≤ last.BaseAddress + last.RegionSize)) ∧
    (iterMemoryMapLoop mq maxAddr currentAddr).2 ≠ MapStop.stalled ∧
    ((iterMemoryMapLoop mq maxAddr currentAddr).2 = MapStop.queryError →
      ∃ a, mq a = MQueryResult.osError) := by
  intro fuel
  induction fuel with
  | zero =>
    intro currentAddr hfuel _
    rw [iterMemoryMapLoop, dif_neg (by omega)]
    simp
    omega
  | succ n ih =>
    intro currentAddr hfuel halign
    rw [iterMemoryMapLoop]
    by_cases hlt : currentAddr < maxAddr
    · rw [dif_pos hlt]
      cases hq : mq currentAddr with
      | invalidParameter => simp
      | osError =>
        simp only
        refine ⟨by simp, by simp, by simp, by simp, fun _ => ⟨currentAddr, hq⟩⟩
      | region mbi =>
        obtain ⟨hbase, hpos, hmod⟩ := hmq currentAddr halign mbi hq
        have hadv : currentAddr < mbi.BaseAddress + mbi.RegionSize := by omega
        simp only [dif_pos hadv]
        have halign2 : (mbi.BaseAddress + mbi.RegionSize) % pageSize = 0 := by
          simp only [pageSize] at halign hmod ⊢
          omega
        have hrec := ih (mbi.BaseAddress + mbi.RegionSize) (by omega) halign2
        obtain ⟨hchain, hhead, hlast, hstall, herr⟩ := hrec
        refine ⟨?_, ?_, ?_, hstall, herr⟩
        · exact List.chain'_cons'.mpr ⟨fun y hy => by
            have := hhead y hy; omega, hchain⟩
        · intro first hfirst
          simp at hfirst
          simp [← hfirst, hbase]
        · intro hstop
          rcases hlast hstop with ⟨hnil, hle⟩ | ⟨last, hmem, hle⟩
          · right
            refine ⟨mbi, ?_, by omega⟩
            simp [hnil]
          · right
            refine ⟨last, ?_, hle⟩
            rcases hrest : (iterMemoryMapLoop mq maxAddr
                (mbi.BaseAddress + mbi.RegionSize)).1 with _ | ⟨b, l⟩
            · simp [hrest] at hmem
            · rw [hrest] at hmem
              simpa [List.getLast?_cons_cons] using hmem
    · rw [dif_neg hlt]
      simp
      omega

/-- C6: for every address range, the regions produced by `iter_memory_map`
tile it: consecutive regions are contiguous (each starts where the previous
one ended, so they are non-overlapping and in increasing address order),
the first region starts at the page-aligned lower bound, and when the walk
ends by reaching the upper bound the last region's end is at least the
page-aligned upper bound; the defensive stall check never fires, and a
query answering `ERROR_INVALID_PARAMETER` ends the walk without an error —
an error outcome can only come from a query that actually raised some other
`WindowsError`.  (The OS oracle hypothesis is `VirtualQueryEx`'s contract:
the returned region starts at the page-aligned queried address and spans a
positive whole number of pages.) -/
theorem iter_memory_map_tiles (mq : Nat → MQueryResult) (minAddr maxAddr : Nat)
    (hmq : ∀ a, a % pageSize = 0 → ∀ mbi, mq a = MQueryResult.region mbi →
      mbi.BaseAddress = a ∧ 0 < mbi.RegionSize ∧ mbi.RegionSize % pageSize = 0) :
    List.Chain' (fun x y => y.BaseAddress = x.BaseAddress + x.RegionSize)
      (iter_memory_map mq minAddr maxAddr).1 ∧
    (∀ first ∈ (iter_memory_map mq minAddr maxAddr).1.head?,
      first.BaseAddress = align_address_to_page_start minAddr) ∧
    ((iter_memory_map mq minAddr maxAddr).2 = MapStop.reachedEnd →
      (iter_memory_map mq minAddr maxAddr).1 = [] ∨
      (∃ last ∈ (iter_memory_map mq minAddr maxAddr).1.getLast?,
        align_address_to_page_end maxAddr ≤ last.BaseAddress + last.RegionSize)) ∧
    (iter_memory_map mq minAddr maxAddr).2 ≠ MapStop.stalled ∧
    ((iter_memory_map mq minAddr maxAddr).2 = MapStop.queryError →
      ∃ a, mq a = MQueryResult.osError) := by
  have halign : align_address_to_page_start minAddr % pageSize = 0 := by
    simp only [align_address_to_page_start, pageSize]
    omega
  have h := iterMemoryMapLoop_spec mq (align_address_range minAddr maxAddr).2 hmq
    ((align_address_range minAddr maxAddr).2 - (align_address_range minAddr maxAddr).1)
    (align_address_range minAddr maxAddr).1 le_rfl halign
  obtain ⟨hchain, hhead, hlast, hstall, herr⟩ := h
  exact ⟨hchain, hhead, fun hstop => (hlast hstop).imp (fun hp => hp.1) id,
    hstall, herr⟩

theorem iter_memory_map_tiles_witness :
    List.Chain' (fun x y => y.BaseAddress = x.BaseAddress + x.RegionSize)
      (iter_memory_map c6Mquery 0x800 0x2800).1 ∧
    (∀ first ∈ (iter_memory_map c6Mquery 0x800 0x2800).1.head?,
      first.BaseAddress = align_address_to_page_start 0x800) ∧
    ((iter_memory_map c6Mquery 0x800 0x2800).2 = MapStop.reachedEnd →
      (iter_memory_map c6Mquery 0x800 0x2800).1 = [] ∨
      (∃ last ∈ (iter_memory_map c6Mquery 0x800 0x2800).1.getLast?,
        align_address_to_page_end 0x2800 ≤ last.BaseAddress + last.RegionSize)) ∧
    (iter_memory_map c6Mquery 0x800 0x2800).2 ≠ MapStop.stalled ∧
    ((iter_memory_map c6Mquery 0x800 0x2800).2 = MapStop.queryError →
      ∃ a, c6Mquery a = MQueryResult.osError) :=
  iter_memory_map_tiles c6Mquery 0x800 0x2800 (by
    intro a _ mbi hm
    unfold c6Mquery at hm
    split at hm
    · cases hm
      exact ⟨rfl, by norm_num, by norm_num [pageSize]⟩
    · cases hm)

theorem get_handle_grants_requested (s : Option ProcHandle) (fresh r : Nat) :
    r ||| (get_handle s fresh r).1.dwAccess = (get_handle s fresh r).1.dwAccess := by
  cases s with
  | none => simp [get_handle, open_handle]
  | some h =>
    rw [get_handle]
    split_ifs with hi
    · simp only [open_handle]
      rw [← Nat.lor_assoc, Nat.lor_comm r h.dwAccess, Nat.lor_assoc]
      simp
    · simp only [ne_eq, not_not] at hi
      rw [Nat.lor_comm]
      exact hi

theorem get_handle_keeps_rights (s : ProcHandle) (fresh r : Nat) :
    s.dwAccess ||| (get_handle (some s) fresh r).1.dwAccess
      = (get_handle (some s) fresh r).1.dwAccess := by
  rw [get_handle]
  split_ifs with hi
  · simp only [open_handle]
    rw [← Nat.lor_assoc]
    simp
  · simp

theorem run_get_handle_monotone (rs : List Nat) :
    ∀ (h0 : ProcHandle) (fresh : Nat),
    ∃ h1, (run_get_handle (some h0) fresh rs).1 = some h1 ∧
      h0.dwAccess ||| h1.dwAccess = h1.dwAccess := by
  induction rs with
  | nil => intro h0 fresh; exact ⟨h0, rfl, by simp⟩
  | cons r rs ih =>
    intro h0 fresh
    obtain ⟨h1, heq, hsub⟩ := ih (get_handle (some h0) fresh r).1 (fresh + 1)
    refine ⟨h1, by simpa [run_get_handle] using heq, ?_⟩
    have hk := get_handle_keeps_rights h0 fresh r
    rw [← hsub, ← Nat.lor_assoc, hk]

/-- C7: along every sequence of `get_handle` calls, (1) the held handle's
rights are a superset of every access mask requested so far; (2) a call on
a sufficient handle performs no OS call and returns the identical handle
object, and conversely, performing no OS call and returning the same
handle only happens when the requested rights were already covered; (3) an
insufficient handle triggers exactly one open (with the union of old and
new rights) followed by one close of the previous handle; and (4) with no
handle held, the call opens with exactly the requested rights. -/
theorem get_handle_rights_monotone_and_idempotent :
    (∀ (s0 : Option ProcHandle) (fresh : Nat) (rs : List Nat), ∀ r ∈ rs,
      ∃ h, (run_get_handle s0 fresh rs).1 = some h ∧
        r ||| h.dwAccess = h.dwAccess) ∧
    (∀ (h : ProcHandle) (fresh r : Nat),
      ((get_handle (some h) fresh r).2 = [] ∧ (get_handle (some h) fresh r).1 = h)
        ↔ h.dwAccess ||| r = h.dwAccess) ∧
    (∀ (h : ProcHandle) (fresh r : Nat), (h.dwAccess ||| r) ≠ h.dwAccess →
      (get_handle (some h) fresh r).2
        = [HandleAction.osOpen (h.dwAccess ||| r), HandleAction.osClose h.hid] ∧
      (get_handle (some h) fresh r).1.dwAccess = h.dwAccess ||| r) ∧
    (∀ (fresh r : Nat), (get_handle none fresh r).2 = [HandleAction.osOpen r]) := by
  refine ⟨?_, ?_, ?_, ?_⟩
  · intro s0 fresh rs
    induction rs generalizing s0 fresh with
    | nil => intro r hr; cases hr
    | cons q qs ih =>
      intro r hr
      rcases List.mem_cons.mp hr with hrq | hrs
      · subst hrq
        obtain ⟨h1, heq, hsub⟩ :=
          run_get_handle_monotone qs (get_handle s0 fresh r).1 (fresh + 1)
        refine ⟨h1, by simpa [run_get_handle] using heq, ?_⟩
        have hg := get_handle_grants_requested s0 fresh r
        rw [← hsub, ← Nat.lor_assoc, hg]
      · obtain ⟨h1, heq, hsub⟩ := ih (some (get_handle s0 fresh q).1) (fresh + 1) r hrs
        exact ⟨h1, by simpa [run_get_handle] using heq, hsub⟩
  · intro h fresh r
    constructor
    · intro ⟨hacts, _⟩
      rw [get_handle] at hacts
      by_cases hi : (h.dwAccess ||| r) ≠ h.dwAccess
      · rw [if_pos hi] at hacts
        simp [open_handle] at hacts
      · simpa using hi
    · intro hsub
      rw [get_handle, if_neg (by simpa using hsub)]
      exact ⟨rfl, rfl⟩
  · intro h fresh r hi
    rw [get_handle, if_pos hi]
    exact ⟨rfl, rfl⟩
  · intro fresh r
    rfl

theorem get_handle_rights_monotone_and_idempotent_witness :
    ∃ h, (run_get_handle none 7 [0x10, 0x400, 0x10]).1 = some h ∧
      0x400 ||| h.dwAccess = h.dwAccess :=
  get_handle_rights_monotone_and_idempotent.1 none 7 [0x10, 0x400, 0x10] 0x400
    (by decide)

theorem firstNotReadable_mem (l : List MemoryBasicInformation)
    (m : MemoryBasicInformation) (h : firstNotReadable l = some m) : m ∈ l := by
  induction l with
  | nil => cases h
  | cons x xs ih =>
    rw [firstNotReadable] at h
    split_ifs at h with hr
    · exact List.mem_cons_of_mem x (ih h)
    · cases h
      exact List.mem_cons_self _ _

/-- C8: `peek` never propagates an error — whatever the map and the OS
outcomes, it returns a (possibly empty) run of bytes starting at the
requested address and no longer than requested — and when the OS calls
succeed it returns exactly the bytes of the longest readable span starting
at the address: all `nSize` bytes when every region of the map is readable,
and exactly the bytes up to (not including) the base of the first region
lacking read access (such as a guard page) when there is one.  The
hypothesis is `get_memory_map`'s contract that every region it yields for
the range starts below the range's end. -/
theorem peek_truncates_to_readable (memoryMap : List MemoryBasicInformation)
    (mem : Nat → Nat) (lpBaseAddress nSize : Nat)
    (hcover : ∀ m ∈ memoryMap, m.BaseAddress < lpBaseAddress + nSize) :
    (∀ handleOk readOk : Bool, ∃ k, k ≤ nSize ∧
      peek memoryMap mem handleOk readOk lpBaseAddress nSize
        = (List.range k).map (fun i => mem (lpBaseAddress + i))) ∧
    (firstNotReadable memoryMap = none →
      peek memoryMap mem true true lpBaseAddress nSize
        = (List.range nSize).map (fun i => mem (lpBaseAddress + i))) ∧
    (∀ mbi, firstNotReadable memoryMap = some mbi →
      peek memoryMap mem true true lpBaseAddress nSize
        = (List.range (mbi.BaseAddress - lpBaseAddress)).map
            (fun i => mem (lpBaseAddress + i))) := by
  refine ⟨?_, ?_, ?_⟩
  · intro handleOk readOk
    rw [peek.eq_def]
    cases hf : firstNotReadable memoryMap with
    | none =>
      simp only [hf]
      split_ifs <;>
        first
          | exact ⟨nSize, le_rfl, rfl⟩
          | exact ⟨0, Nat.zero_le _, by simp⟩
    | some mbi =>
      have hlt := hcover mbi (firstNotReadable_mem _ _ hf)
      have hle : mbi.BaseAddress - lpBaseAddress ≤ nSize := by omega
      simp only [hf]
      split_ifs with h1 h2 h3 h4
      · exact ⟨mbi.BaseAddress - lpBaseAddress, hle, rfl⟩
      all_goals exact ⟨0, Nat.zero_le _, by simp⟩
  · intro hf
    rw [peek.eq_def]
    by_cases hn : 0 < nSize
    · simp [hf, hn]
    · have h0 : nSize = 0 := by omega
      simp [hf, h0]
  · intro mbi hf
    have hlt := hcover mbi (firstNotReadable_mem _ _ hf)
    rw [peek.eq_def]
    by_cases hn : 0 < nSize
    · by_cases hs : 0 < mbi.BaseAddress - lpBaseAddress
      · simp [hf, hn, hs]
      · have h0 : mbi.BaseAddress - lpBaseAddress = 0 := by omega
        simp [hf, hn, h0]
    · have h0 : nSize = 0 := by omega
      have h0' : mbi.BaseAddress - lpBaseAddress = 0 := by omega
      simp [hf, h0, h0']

theorem peek_truncates_to_readable_witness :
    peek c8Map (fun a => a % 256) true true 0x10ff0 0x20
      = (List.range (0x11000 - 0x10ff0)).map (fun i => (0x10ff0 + i) % 256) :=
  (peek_truncates_to_readable c8Map (fun a => a % 256) 0x10ff0 0x20 (by decide)).2.2
    { BaseAddress := 0x11000, RegionSize := 0x1000, State := MemState.committed,
      Protect := PAGE_READWRITE ||| PAGE_GUARD, Typ := MEM_PRIVATE, content := none }
    (by decide)

theorem containsKey_iff (c : Container) (k : Nat) :
    containsKey c k = true ↔ k ∈ c.map Prod.fst := by
  induction c with
  | nil => simp [containsKey]
  | cons e es ih =>
    rw [containsKey]
    by_cases h : e.1 = k
    · simp [h]
    · simp only [List.map_cons, List.mem_cons, Bool.or_eq_true, beq_iff_eq, h, ih,
        false_or]
      constructor
      · exact Or.inr
      · rintro (rfl | hm)
        · exact absurd rfl h
        · exact hm

theorem keys_replace (c : Container) (k : Nat) (v : ProcEntry) :
    (c.map (fun e => if e.1 = k then (k, v) else e)).map Prod.fst
      = c.map Prod.fst := by
  induction c with
  | nil => rfl
  | cons e es ih => by_cases h : e.1 = k <;> simp [h, ih]

theorem dictGet_replace_self (c : Container) (k : Nat) (v : ProcEntry)
    (hc : k ∈ c.map Prod.fst) :
    dictGet (c.map (fun e => if e.1 = k then (k, v) else e)) k = some v := by
  induction c with
  | nil => simp at hc
  | cons e es ih =>
    rw [List.map_cons]
    by_cases h : e.1 = k
    · rw [if_pos h, dictGet, if_pos rfl]
    · rw [if_neg h, dictGet, if_neg h]
      have hc' : k = e.1 ∨ k ∈ es.map Prod.fst := by
        rw [List.map_cons, List.mem_cons] at hc
        exact hc
      rcases hc' with rfl | hm
      · exact absurd rfl h
      · exact ih hm

theorem dictGet_replace_ne (c : Container) (k k' : Nat) (v : ProcEntry)
    (hne : k' ≠ k) :
    dictGet (c.map (fun e => if e.1 = k then (k, v) else e)) k' = dictGet c k' := by
  induction c with
  | nil => rfl
  | cons e es ih =>
    rw [List.map_cons]
    by_cases h : e.1 = k
    · rw [if_pos h, dictGet, if_neg (by omega), dictGet, if_neg (by omega)]
      exact ih
    · rw [if_neg h, dictGet, dictGet]
      by_cases h' : e.1 = k'
      · rw [if_pos h', if_pos h']
      · rw [if_neg h', if_neg h']
        exact ih

theorem dictGet_append_one (c : Container) (k k' : Nat) (v : ProcEntry) :
    dictGet (c ++ [(k, v)]) k'
      = if (dictGet c k').isSome then dictGet c k'
        else if k' = k then some v else none := by
  induction c with
  | nil =>
    rw [List.nil_append]
    by_cases h : k' = k
    · subst h
      simp [dictGet]
    · simp [dictGet, h, Ne.symm h]
  | cons e es ih =>
    rw [List.cons_append, dictGet, dictGet]
    by_cases h : e.1 = k'
    · rw [if_pos h, if_pos h]
      simp
    · rw [if_neg h, if_neg h]
      exact ih

theorem mem_keys_dictSet (c : Container) (k k' : Nat) (v : ProcEntry) :
    k' ∈ (dictSet c k v).map Prod.fst ↔ k' ∈ c.map Prod.fst ∨ k' = k := by
  rw [dictSet]
  split_ifs with hc
  · rw [keys_replace]
    constructor
    · exact Or.inl
    · rintro (h | rfl)
      · exact h
      · exact (containsKey_iff c k').mp hc
  · simp

theorem mem_keys_dictDel (c : Container) (k k' : Nat) :
    k' ∈ (dictDel c k).map Prod.fst ↔ k' ∈ c.map Prod.fst ∧ k' ≠ k := by
  induction c with
  | nil => simp [dictDel]
  | cons e es ih =>
    rw [dictDel]
    by_cases h : e.1 = k
    · rw [if_pos h, ih]
      subst h
      simp only [List.map_cons, List.mem_cons]
      constructor
      · exact fun ⟨hm, hn⟩ => ⟨Or.inr hm, hn⟩
      · rintro ⟨hm | hm, hn⟩
        · exact absurd hm hn
        · exact ⟨hm, hn⟩
    · rw [if_neg h]
      simp only [List.map_cons, List.mem_cons, ih]
      constructor
      · rintro (rfl | ⟨hm, hn⟩)
        · exact ⟨Or.inl rfl, h⟩
        · exact ⟨Or.inr hm, hn⟩
      · rintro ⟨rfl | hm, hn⟩
        · exact Or.inl rfl
        · exact Or.inr ⟨hm, hn⟩

theorem mem_keys_foldl_del (l : List Nat) :
    ∀ (c : Container) (k : Nat),
    k ∈ ((l.foldl (fun acc p => dictDel acc p) c).map Prod.fst)
      ↔ k ∈ c.map Prod.fst ∧ k ∉ l := by
  induction l with
  | nil => simp
  | cons p ps ih =>
    intro c k
    rw [List.foldl_cons, ih, mem_keys_dictDel]
    simp only [List.mem_cons]
    constructor
    · rintro ⟨⟨hm, hne⟩, hn⟩
      exact ⟨hm, by rintro (rfl | h) <;> simp_all⟩
    · rintro ⟨hm, hn⟩
      exact ⟨⟨hm, fun h => hn (Or.inl h)⟩, fun h => hn (Or.inr h)⟩

theorem dictGet_isSome_iff (c : Container) (k : Nat) :
    (dictGet c k).isSome = true ↔ k ∈ c.map Prod.fst := by
  induction c with
  | nil => simp [dictGet]
  | cons e es ih =>
    rw [dictGet]
    by_cases h : e.1 = k
    · rw [if_pos h]
      simp [h, eq_comm]
    · rw [if_neg h]
      simp only [List.map_cons, List.mem_cons, ih]
      constructor
      · exact Or.inr
      · rintro (rfl | hm)
        · exact absurd rfl h
        · exact hm

theorem dictGet_dictSet_self (c : Container) (k : Nat) (v : ProcEntry) :
    dictGet (dictSet c k v) k = some v := by
  rw [dictSet]
  split_ifs with hc
  · exact dictGet_replace_self c k v ((containsKey_iff c k).mp hc)
  · rw [dictGet_append_one]
    have : (dictGet c k).isSome = false := by
      rw [containsKey_iff] at hc
      rcases hs : (dictGet c k).isSome with _ | _
      · rfl
      · exact absurd ((dictGet_isSome_iff c k).mp hs) hc
    rw [this]
    simp

theorem dictGet_dictSet_ne (c : Container) (k k' : Nat) (v : ProcEntry)
    (hne : k' ≠ k) : dictGet (dictSet c k v) k' = dictGet c k' := by
  rw [dictSet]
  split_ifs with hc
  · exact dictGet_replace_ne c k k' v hne
  · rw [dictGet_append_one, if_neg hne]
    rcases hs : (dictGet c k') with _ | e
    · simp [hs]
    · simp [hs]

theorem dictGet_dictDel_ne (c : Container) (k k' : Nat) (hne : k' ≠ k) :
    dictGet (dictDel c k) k' = dictGet c k' := by
  induction c with
  | nil => rfl
  | cons e es ih =>
    rw [dictDel, dictGet]
    by_cases h : e.1 = k
    · rw [if_pos h, if_neg (by omega)]
      exact ih
    · rw [if_neg h, dictGet]
      by_cases h' : e.1 = k'
      · rw [if_pos h', if_pos h']
      · rw [if_neg h', if_neg h']
        exact ih

theorem dictGet_foldl_del (l : List Nat) :
    ∀ (c : Container) (k : Nat), k ∉ l →
    dictGet (l.foldl (fun acc p => dictDel acc p) c) k = dictGet c k := by
  induction l with
  | nil => intro c k _; rfl
  | cons p ps ih =>
    intro c k hk
    rw [List.foldl_cons, ih (dictDel c p) k (fun h => hk (List.mem_cons_of_mem p h)),
      dictGet_dictDel_ne c p k (fun h => hk (h ▸ List.mem_cons_self p ps))]

theorem mem_keys_addLoop (l : List Nat) :
    ∀ (c : Container) (i k : Nat),
    k ∈ ((l.foldl fastAddStep (c, i)).1.map Prod.fst)
      ↔ k ∈ c.map Prod.fst ∨ k ∈ l := by
  induction l with
  | nil => simp
  | cons p ps ih =>
    intro c i k
    rw [List.foldl_cons]
    have : fastAddStep (c, i) p = (dictSet c p (newProcess i none), i + 1) := rfl
    rw [this, ih, mem_keys_dictSet]
    simp only [List.mem_cons]
    tauto

theorem dictGet_addLoop_not_mem (l : List Nat) :
    ∀ (c : Container) (i k : Nat), k ∉ l →
    dictGet ((l.foldl fastAddStep (c, i)).1) k = dictGet c k := by
  induction l with
  | nil => intro c i k _; rfl
  | cons p ps ih =>
    intro c i k hk
    rw [List.foldl_cons]
    have : fastAddStep (c, i) p = (dictSet c p (newProcess i none), i + 1) := rfl
    rw [this, ih _ _ _ (fun h => hk (List.mem_cons_of_mem p h)),
      dictGet_dictSet_ne _ _ _ _
        (fun h => hk (by rw [h]; exact List.mem_cons_self p ps))]

theorem dictGet_addLoop_shape (l : List Nat) :
    ∀ (c : Container) (i k : Nat),
    dictGet ((l.foldl fastAddStep (c, i)).1) k = dictGet c k ∨
    ∃ j, dictGet ((l.foldl fastAddStep (c, i)).1) k = some (newProcess j none) := by
  induction l with
  | nil => intro c i k; exact Or.inl rfl
  | cons p ps ih =>
    intro c i k
    rw [List.foldl_cons]
    have hstep : fastAddStep (c, i) p = (dictSet c p (newProcess i none), i + 1) := rfl
    rw [hstep]
    rcases ih (dictSet c p (newProcess i none)) (i + 1) k with h | h
    · by_cases hkp : k = p
      · subst hkp
        right
        exact ⟨i, by rw [h, dictGet_dictSet_self]⟩
      · left
        rw [h, dictGet_dictSet_ne _ _ _ _ hkp]
    · right
      exact h

theorem mem_filter_ne (l : List Nat) (a k : Nat) :
    k ∈ l.filter (fun p => p != a) ↔ k ∈ l ∧ k ≠ a := by
  simp [List.mem_filter]

theorem mem_filter_not_contains (l m : List Nat) (k : Nat) :
    k ∈ l.filter (fun p => ! m.contains p) ↔ k ∈ l ∧ k ∉ m := by
  simp only [List.mem_filter, Bool.not_eq_true']
  constructor
  · rintro ⟨h1, h2⟩
    refine ⟨h1, fun hm => ?_⟩
    have hc : m.contains k = true := List.elem_iff.mpr hm
    exact Bool.noConfusion (hc.symm.trans h2)
  · rintro ⟨h1, h2⟩
    refine ⟨h1, ?_⟩
    rcases he : m.contains k with _ | _
    · rfl
    · exact absurd (List.elem_iff.mp he) h2

/-- C10: `scan_processes_fast` only adds and deletes: every process ID
(other than the caller's own) present both before and after maps to the
identical unchanged entry — same object identity, filename, threads,
modules, and handle — and every ID present afterwards was either already
tracked or maps to a freshly constructed Process (no filename, no threads,
no modules, no handle). -/
theorem scan_processes_fast_frame (enumProcesses : List Nat) (ourPid freshId : Nat)
    (c : Container) (k : Nat) :
    (k ≠ ourPid → k ∈ c.map Prod.fst →
      k ∈ (scan_processes_fast enumProcesses ourPid freshId c).map Prod.fst →
      dictGet (scan_processes_fast enumProcesses ourPid freshId c) k = dictGet c k) ∧
    (k ∈ (scan_processes_fast enumProcesses ourPid freshId c).map Prod.fst →
      k ∈ c.map Prod.fst ∨
      ∃ j, dictGet (scan_processes_fast enumProcesses ourPid freshId c) k
        = some (newProcess j none)) := by
  simp only [scan_processes_fast]
  set new_pids := enumProcesses.dedup.filter (fun p => p != ourPid) with hnew
  set old_pids := (c.map Prod.fst).dedup.filter (fun p => p != ourPid) with hold
  set toAdd := new_pids.filter (fun p => ! old_pids.contains p) with hadd
  set toDel := old_pids.filter (fun p => ! new_pids.contains p) with hdel
  constructor
  · intro hne hmem hmem'
    rw [mem_keys_foldl_del] at hmem'
    rw [dictGet_foldl_del _ _ _ hmem'.2]
    rw [dictGet_addLoop_not_mem]
    rw [hadd, mem_filter_not_contains]
    rintro ⟨_, hnold⟩
    exact hnold ((mem_filter_ne _ _ _).mpr ⟨List.mem_dedup.mpr hmem, hne⟩)
  · intro hmem'
    rw [mem_keys_foldl_del] at hmem'
    rcases dictGet_addLoop_shape toAdd c freshId k with h | h
    · rw [mem_keys_addLoop] at hmem'
      rcases hmem'.1 with hm | hm
      · exact Or.inl hm
      · by_cases hmc : k ∈ c.map Prod.fst
        · exact Or.inl hmc
        · exfalso
          have hs : (dictGet ((toAdd.foldl fastAddStep (c, freshId)).1) k).isSome
              = true := by
            rw [dictGet_isSome_iff, mem_keys_addLoop]
            exact Or.inr hm
          rw [h, dictGet_isSome_iff] at hs
          exact hmc hs
    · right
      obtain ⟨j, hj⟩ := h
      exact ⟨j, by rw [dictGet_foldl_del _ _ _ hmem'.2, hj]⟩

theorem scan_processes_fast_membership (enumProcesses : List Nat)
    (ourPid freshId : Nat) (c : Container) (k : Nat) :
    (k ∈ enumProcesses → k ≠ ourPid →
      k ∈ (scan_processes_fast enumProcesses ourPid freshId c).map Prod.fst) ∧
    (k ∈ c.map Prod.fst → k ∉ enumProcesses → k ≠ ourPid →
      k ∉ (scan_processes_fast enumProcesses ourPid freshId c).map Prod.fst) ∧
    (ourPid ∈ (scan_processes_fast enumProcesses ourPid freshId c).map Prod.fst
      ↔ ourPid ∈ c.map Prod.fst) := by
  simp only [scan_processes_fast]
  set new_pids := enumProcesses.dedup.filter (fun p => p != ourPid) with hnew
  set old_pids := (c.map Prod.fst).dedup.filter (fun p => p != ourPid) with hold
  have hmem : ∀ q, q ∈ ((((new_pids.filter (fun p => ! old_pids.contains p)).foldl
      fastAddStep (c, freshId)).1.map Prod.fst)) ↔
      q ∈ c.map Prod.fst ∨ q ∈ new_pids.filter (fun p => ! old_pids.contains p) :=
    fun q => mem_keys_addLoop _ c freshId q
  have hnewIff : ∀ q, q ∈ new_pids ↔ q ∈ enumProcesses ∧ q ≠ ourPid := by
    intro q
    rw [hnew, mem_filter_ne, List.mem_dedup]
  have holdIff : ∀ q, q ∈ old_pids ↔ q ∈ c.map Prod.fst ∧ q ≠ ourPid := by
    intro q
    rw [hold, mem_filter_ne, List.mem_dedup]
  refine ⟨?_, ?_, ?_⟩
  · intro hk hne
    rw [mem_keys_foldl_del, hmem]
    constructor
    · by_cases hc : k ∈ c.map Prod.fst
      · exact Or.inl hc
      · refine Or.inr ((mem_filter_not_contains _ _ _).mpr ⟨(hnewIff k).mpr ⟨hk, hne⟩,
          fun hko => hc ((holdIff k).mp hko).1⟩)
    · intro hdel
      rw [mem_filter_not_contains] at hdel
      exact hdel.2 ((hnewIff k).mpr ⟨hk, hne⟩)
  · intro hc hk hne hmem'
    rw [mem_keys_foldl_del, hmem] at hmem'
    refine hmem'.2 ((mem_filter_not_contains _ _ _).mpr
      ⟨(holdIff k).mpr ⟨hc, hne⟩, fun hkn => hk ((hnewIff k).mp hkn).1⟩)
  · rw [mem_keys_foldl_del, hmem]
    constructor
    · rintro ⟨hin | hin, _⟩
      · exact hin
      · rw [mem_filter_not_contains] at hin
        exact absurd rfl ((hnewIff ourPid).mp hin.1).2
    · intro hc
      refine ⟨Or.inl hc, fun hdel => ?_⟩
      rw [mem_filter_not_contains] at hdel
      exact absurd rfl ((holdIff ourPid).mp hdel.1).2

theorem procScanStep_mem_keys (ourPid : Nat) (st : ScanState)
    (pe : Nat × Option String) (k : Nat) :
    k ∈ (procScanStep ourPid st pe).c.map Prod.fst
      ↔ k ∈ st.c.map Prod.fst ∨ (k = pe.1 ∧ pe.1 ≠ ourPid) := by
  rw [procScanStep]
  split_ifs with h
  · simp [h]
  · cases hd : dictGet st.c pe.1 with
    | none =>
      simp only []
      rw [mem_keys_dictSet]
      constructor
      · rintro (hm | rfl)
        · exact Or.inl hm
        · exact Or.inr ⟨rfl, h⟩
      · rintro (hm | ⟨rfl, _⟩)
        · exact Or.inl hm
        · exact Or.inr rfl
    | some entry =>
      have hp : pe.1 ∈ st.c.map Prod.fst := by
        rw [← dictGet_isSome_iff, hd]
        rfl
      simp only []
      split_ifs with hu
      · simp only []
        rw [mem_keys_dictSet]
        constructor
        · rintro (hm | rfl)
          · exact Or.inl hm
          · exact Or.inl hp
        · rintro (hm | ⟨rfl, _⟩)
          · exact Or.inl hm
          · exact Or.inl hp
      · simp only []
        constructor
        · exact Or.inl
        · rintro (hm | ⟨rfl, _⟩)
          · exact hm
          · exact hp

theorem procScanStep_mem_dead (ourPid : Nat) (st : ScanState)
    (pe : Nat × Option String) (k : Nat) :
    k ∈ (procScanStep ourPid st pe).dead
      ↔ k ∈ st.dead ∧ ¬(k = pe.1 ∧ pe.1 ≠ ourPid) := by
  rw [procScanStep]
  split_ifs with h
  · simp [h]
  · have hdead : ∀ (d : List Nat), k ∈ d.filter (fun p => p != pe.1)
        ↔ k ∈ d ∧ k ≠ pe.1 := fun d => mem_filter_ne d pe.1 k
    cases hd : dictGet st.c pe.1 with
    | none =>
      simp only []
      rw [hdead]
      constructor
      · rintro ⟨hm, hne⟩
        exact ⟨hm, fun ⟨he, _⟩ => hne he⟩
      · rintro ⟨hm, hne⟩
        exact ⟨hm, fun he => hne ⟨he, h⟩⟩
    | some entry =>
      simp only []
      split_ifs with hu <;>
      · simp only []
        rw [hdead]
        constructor
        · rintro ⟨hm, hne⟩
          exact ⟨hm, fun ⟨he, _⟩ => hne he⟩
        · rintro ⟨hm, hne⟩
          exact ⟨hm, fun he => hne ⟨he, h⟩⟩

theorem procScanLoop_mem_keys (l : List (Nat × Option String)) (ourPid : Nat) :
    ∀ (st : ScanState) (k : Nat),
    k ∈ ((l.foldl (procScanStep ourPid) st).c.map Prod.fst)
      ↔ k ∈ st.c.map Prod.fst ∨ (k ∈ l.map Prod.fst ∧ k ≠ ourPid) := by
  induction l with
  | nil => simp
  | cons pe ps ih =>
    intro st k
    rw [List.foldl_cons, ih, procScanStep_mem_keys]
    simp only [List.map_cons, List.mem_cons]
    constructor
    · rintro ((hm | ⟨rfl, hne⟩) | ⟨hm, hne⟩)
      · exact Or.inl hm
      · exact Or.inr ⟨Or.inl rfl, hne⟩
      · exact Or.inr ⟨Or.inr hm, hne⟩
    · rintro (hm | ⟨rfl | hm, hne⟩)
      · exact Or.inl (Or.inl hm)
      · exact Or.inl (Or.inr ⟨rfl, hne⟩)
      · exact Or.inr ⟨hm, hne⟩

theorem procScanLoop_mem_dead (l : List (Nat × Option String)) (ourPid : Nat) :
    ∀ (st : ScanState) (k : Nat),
    k ∈ (l.foldl (procScanStep ourPid) st).dead
      ↔ k ∈ st.dead ∧ ¬(k ∈ l.map Prod.fst ∧ k ≠ ourPid) := by
  induction l with
  | nil => simp
  | cons pe ps ih =>
    intro st k
    rw [List.foldl_cons, ih, procScanStep_mem_dead]
    simp only [List.map_cons, List.mem_cons]
    constructor
    · rintro ⟨⟨hm, h1⟩, h2⟩
      refine ⟨hm, ?_⟩
      rintro ⟨rfl | hin, hne⟩
      · exact h1 ⟨rfl, hne⟩
      · exact h2 ⟨hin, hne⟩
    · rintro ⟨hm, hno⟩
      exact ⟨⟨hm, fun ⟨he, hne⟩ => hno ⟨Or.inl he, by subst he; exact hne⟩⟩,
        fun ⟨hin, hne⟩ => hno ⟨Or.inr hin, hne⟩⟩

theorem threadScanStep_mem_keys (ourPid : Nat) (st : ScanState)
    (te : Nat × Nat) (k : Nat) :
    k ∈ (threadScanStep ourPid st te).c.map Prod.fst
      ↔ k ∈ st.c.map Prod.fst ∨ (k = te.1 ∧ te.1 ≠ ourPid) := by
  rw [threadScanStep]
  split_ifs with h
  · simp [h]
  · cases hd : dictGet st.c te.1 with
    | none =>
      simp only []
      rw [mem_keys_dictSet]
      constructor
      · rintro (hm | rfl)
        · exact Or.inl hm
        · exact Or.inr ⟨rfl, h⟩
      · rintro (hm | ⟨rfl, _⟩)
        · exact Or.inl hm
        · exact Or.inr rfl
    | some entry =>
      have hp : te.1 ∈ st.c.map Prod.fst := by
        rw [← dictGet_isSome_iff, hd]
        rfl
      simp only []
      split_ifs with hu
      · simp only []
        constructor
        · exact Or.inl
        · rintro (hm | ⟨rfl, _⟩)
          · exact hm
          · exact hp
      · simp only []
        rw [mem_keys_dictSet]
        constructor
        · rintro (hm | rfl)
          · exact Or.inl hm
          · exact Or.inl hp
        · rintro (hm | ⟨rfl, _⟩)
          · exact Or.inl hm
          · exact Or.inl hp

theorem threadScanStep_mem_dead (ourPid : Nat) (st : ScanState)
    (te : Nat × Nat) (k : Nat) :
    k ∈ (threadScanStep ourPid st te).dead
      ↔ k ∈ st.dead ∧ ¬(k = te.1 ∧ te.1 ≠ ourPid) := by
  rw [threadScanStep]
  split_ifs with h
  · simp [h]
  · have hdead : ∀ (d : List Nat), k ∈ d.filter (fun p => p != te.1)
        ↔ k ∈ d ∧ k ≠ te.1 := fun d => mem_filter_ne d te.1 k
    cases hd : dictGet st.c te.1 with
    | none =>
      simp only []
      rw [hdead]
      constructor
      · rintro ⟨hm, hne⟩
        exact ⟨hm, fun ⟨he, _⟩ => hne he⟩
      · rintro ⟨hm, hne⟩
        exact ⟨hm, fun he => hne ⟨he, h⟩⟩
    | some entry =>
      simp only []
      split_ifs with hu <;>
      · simp only []
        rw [hdead]
        constructor
        · rintro ⟨hm, hne⟩
          exact ⟨hm, fun ⟨he, _⟩ => hne he⟩
        · rintro ⟨hm, hne⟩
          exact ⟨hm, fun he => hne ⟨he, h⟩⟩

theorem threadScanLoop_mem_keys (l : List (Nat × Nat)) (ourPid : Nat) :
    ∀ (st : ScanState) (k : Nat),
    k ∈ ((l.foldl (threadScanStep ourPid) st).c.map Prod.fst)
      ↔ k ∈ st.c.map Prod.fst ∨ (k ∈ l.map Prod.fst ∧ k ≠ ourPid) := by
  induction l with
  | nil => simp
  | cons te ts ih =>
    intro st k
    rw [List.foldl_cons, ih, threadScanStep_mem_keys]
    simp only [List.map_cons, List.mem_cons]
    constructor
    · rintro ((hm | ⟨rfl, hne⟩) | ⟨hm, hne⟩)
      · exact Or.inl hm
      · exact Or.inr ⟨Or.inl rfl, hne⟩
      · exact Or.inr ⟨Or.inr hm, hne⟩
    · rintro (hm | ⟨rfl | hm, hne⟩)
      · exact Or.inl (Or.inl hm)
      · exact Or.inl (Or.inr ⟨rfl, hne⟩)
      · exact Or.inr ⟨hm, hne⟩

theorem threadScanLoop_mem_dead (l : List (Nat × Nat)) (ourPid : Nat) :
    ∀ (st : ScanState) (k : Nat),
    k ∈ (l.foldl (threadScanStep ourPid) st).dead
      ↔ k ∈ st.dead ∧ ¬(k ∈ l.map Prod.fst ∧ k ≠ ourPid) := by
  induction l with
  | nil => simp
  | cons te ts ih =>
    intro st k
    rw [List.foldl_cons, ih, threadScanStep_mem_dead]
    simp only [List.map_cons, List.mem_cons]
    constructor
    · rintro ⟨⟨hm, h1⟩, h2⟩
      refine ⟨hm, ?_⟩
      rintro ⟨rfl | hin, hne⟩
      · exact h1 ⟨rfl, hne⟩
      · exact h2 ⟨hin, hne⟩
    · rintro ⟨hm, hno⟩
      exact ⟨⟨hm, fun ⟨he, hne⟩ => hno ⟨Or.inl he, by subst he; exact hne⟩⟩,
        fun ⟨hin, hne⟩ => hno ⟨Or.inr hin, hne⟩⟩

theorem mem_keys_map_entry (c : Container) (g : Nat × ProcEntry → ProcEntry)
    (k : Nat) :
    k ∈ ((c.map (fun e => (e.1, g e))).map Prod.fst) ↔ k ∈ c.map Prod.fst := by
  induction c with
  | nil => simp
  | cons e es ih =>
    rw [List.map_cons, List.map_cons, List.map_cons, List.mem_cons, List.mem_cons, ih]

theorem scan_processes_membership (sessionEnum : List (Nat × Option String))
    (ourPid freshId : Nat) (c : Container) (k : Nat) :
    (k ≠ ourPid → (k ∈ (scan_processes sessionEnum ourPid freshId c).map Prod.fst
        ↔ k ∈ sessionEnum.map Prod.fst)) ∧
    (ourPid ∈ (scan_processes sessionEnum ourPid freshId c).map Prod.fst
        ↔ ourPid ∈ c.map Prod.fst) := by
  simp only [scan_processes]
  constructor
  · intro hne
    rw [mem_keys_foldl_del, procScanLoop_mem_keys, procScanLoop_mem_dead]
    simp only [mem_filter_ne, List.mem_dedup]
    constructor
    · rintro ⟨hk | ⟨hp, _⟩, hnd⟩
      · by_cases hp : k ∈ sessionEnum.map Prod.fst
        · exact hp
        · exact absurd ⟨⟨hk, hne⟩, fun ⟨hp', _⟩ => hp hp'⟩ hnd
      · exact hp
    · intro hp
      exact ⟨Or.inr ⟨hp, hne⟩, fun ⟨_, hcon⟩ => hcon ⟨hp, hne⟩⟩
  · rw [mem_keys_foldl_del, procScanLoop_mem_keys, procScanLoop_mem_dead]
    simp only [mem_filter_ne, List.mem_dedup]
    constructor
    · rintro ⟨hk | ⟨_, hc⟩, _⟩
      · exact hk
      · exact absurd rfl hc
    · intro hk
      exact ⟨Or.inl hk, fun ⟨⟨_, hc⟩, _⟩ => hc rfl⟩

theorem scan_processes_and_threads_membership (procEnum : List (Nat × Option String))
    (threadEnum : List (Nat × Nat)) (ourPid freshId : Nat) (c : Container) (k : Nat) :
    ((k ∈ procEnum.map Prod.fst ∨ k ∈ threadEnum.map Prod.fst) → k ≠ ourPid →
      k ∈ (scan_processes_and_threads procEnum threadEnum ourPid freshId c).map
        Prod.fst) ∧
    (k ∈ c.map Prod.fst → k ∉ procEnum.map Prod.fst → k ∉ threadEnum.map Prod.fst →
      k ≠ ourPid →
      k ∉ (scan_processes_and_threads procEnum threadEnum ourPid freshId c).map
        Prod.fst) ∧
    (ourPid ∈ (scan_processes_and_threads procEnum threadEnum ourPid freshId c).map
        Prod.fst
      ↔ ourPid ∈ c.map Prod.fst) := by
  have hmain : ∀ q,
      q ∈ (scan_processes_and_threads procEnum threadEnum ourPid freshId c).map
        Prod.fst
      ↔ ((q ∈ c.map Prod.fst ∨ (q ∈ procEnum.map Prod.fst ∧ q ≠ ourPid))
            ∨ (q ∈ threadEnum.map Prod.fst ∧ q ≠ ourPid))
         ∧ ¬(((q ∈ c.map Prod.fst ∧ q ≠ ourPid)
              ∧ ¬(q ∈ procEnum.map Prod.fst ∧ q ≠ ourPid))
            ∧ ¬(q ∈ threadEnum.map Prod.fst ∧ q ≠ ourPid)) := by
    intro q
    simp only [scan_processes_and_threads]
    rw [mem_keys_map_entry, mem_keys_foldl_del,
      threadScanLoop_mem_keys, procScanLoop_mem_keys, threadScanLoop_mem_dead,
      procScanLoop_mem_dead]
    simp only [mem_filter_ne, List.mem_dedup]
  refine ⟨?_, ?_, ?_⟩
  · intro hor hne
    rw [hmain]
    constructor
    · rcases hor with h | h
      · exact Or.inl (Or.inr ⟨h, hne⟩)
      · exact Or.inr ⟨h, hne⟩
    · rintro ⟨⟨_, hn1⟩, hn2⟩
      rcases hor with h | h
      · exact hn1 ⟨h, hne⟩
      · exact hn2 ⟨h, hne⟩
  · intro hc hp ht hne hmem
    rw [hmain] at hmem
    exact hmem.2 ⟨⟨⟨hc, hne⟩, fun ⟨h, _⟩ => hp h⟩, fun ⟨h, _⟩ => ht h⟩
  · rw [hmain]
    constructor
    · rintro ⟨(hk | ⟨_, hc⟩) | ⟨_, hc⟩, _⟩
      · exact hk
      · exact absurd rfl hc
      · exact absurd rfl hc
    · intro hk
      exact ⟨Or.inl (Or.inl hk), fun ⟨⟨⟨_, hc⟩, _⟩, _⟩ => hc rfl⟩

/-- C4: for every scan cycle — both the fast source
(`scan_processes_fast`, with before-set the container's keys and produced
set the enumerated pids) and the Toolhelp source
(`scan_processes_and_threads`, whose produced set is the pids reported by
its process and thread passes) — every produced ID other than the caller's
own is tracked afterwards; every previously tracked ID the cycle did not
report (and that is not the caller's own) is absent afterwards; and the
caller's own ID is never added by discovery and never counted among the
dead candidates: its tracked status is exactly what it was before. -/
theorem scan_reconciliation (enumProcesses : List Nat)
    (procEnum : List (Nat × Option String)) (threadEnum : List (Nat × Nat))
    (ourPid freshId : Nat) (c : Container) (k : Nat) :
    ((k ∈ enumProcesses → k ≠ ourPid →
      k ∈ (scan_processes_fast enumProcesses ourPid freshId c).map Prod.fst) ∧
    (k ∈ c.map Prod.fst → k ∉ enumProcesses → k ≠ ourPid →
      k ∉ (scan_processes_fast enumProcesses ourPid freshId c).map Prod.fst) ∧
    (ourPid ∈ (scan_processes_fast enumProcesses ourPid freshId c).map Prod.fst
      ↔ ourPid ∈ c.map Prod.fst)) ∧
    (((k ∈ procEnum.map Prod.fst ∨ k ∈ threadEnum.map Prod.fst) → k ≠ ourPid →
      k ∈ (scan_processes_and_threads procEnum threadEnum ourPid freshId c).map
        Prod.fst) ∧
    (k ∈ c.map Prod.fst → k ∉ procEnum.map Prod.fst → k ∉ threadEnum.map Prod.fst →
      k ≠ ourPid →
      k ∉ (scan_processes_and_threads procEnum threadEnum ourPid freshId c).map
        Prod.fst) ∧
    (ourPid ∈ (scan_processes_and_threads procEnum threadEnum ourPid freshId c).map
        Prod.fst
      ↔ ourPid ∈ c.map Prod.fst)) :=
  ⟨scan_processes_fast_membership enumProcesses ourPid freshId c k,
   scan_processes_and_threads_membership procEnum threadEnum ourPid freshId c k⟩

theorem scan_reconciliation_witness :
    (5 : Nat) ∈ (scan_processes_fast [5, 7] 0 100 []).map Prod.fst ∧
    (7 : Nat) ∈ (scan_processes_and_threads [(7, some "e.exe")] [(9, 21)] 0 100
      []).map Prod.fst :=
  ⟨(scan_reconciliation [5, 7] [] [] 0 100 [] 5).1.1 (by decide) (by decide),
   (scan_reconciliation [5, 7] [(7, some "e.exe")] [(9, 21)] 0 100 [] 7).2.1
     (by simp) (by decide)⟩

theorem forall_mem_map_entry (c : Container) (g : Nat × ProcEntry → ProcEntry)
    (q : Nat → Bool) :
    (∀ e ∈ c.map (fun e => (e.1, g e)), q e.1 = true) ↔ (∀ e ∈ c, q e.1 = true) := by
  constructor
  · intro h e he
    exact h (e.1, g e) (List.mem_map.mpr ⟨e, he, rfl⟩)
  · intro h e' he'
    obtain ⟨e, he, rfl⟩ := List.mem_map.mp he'
    exact h e he

/-- C5 (amended): (1) the session-enumeration source runs last in `scan()`
and deletes every tracked ID it does not itself report, so after any
`scan()` call the tracked IDs other than the caller's own are exactly the
session source's reported IDs — in particular, after a Toolhelp failure,
fast-source-only IDs are dropped; and (2) `scan()` returns `True` exactly
when the sub-steps it actually checks all succeed: when the Toolhelp
source failed, the per-process thread backfill must succeed for every
fallback-tracked process that already has recorded threads, and in every
case the per-process module scan and the per-process filename completion
must succeed for every process tracked after the session pass — so a
failing backfill, module scan, or filename completion forces `False`,
while a Toolhelp enumeration failure alone never does. -/
theorem scan_flag_and_session_last (ourPid freshId : Nat)
    (toolhelp : Option (List (Nat × Option String) × List (Nat × Nat)))
    (enumProcesses : List Nat) (backfillOk : Nat → Bool)
    (backfillThreads : Nat → List Nat) (sessionEnum : List (Nat × Option String))
    (modulesOk : Nat → Bool) (moduleScan : Nat → List Nat)
    (filenameRes : Nat → Option String) (c : Container) (k : Nat) :
    (k ≠ ourPid →
      (k ∈ (scan ourPid freshId toolhelp enumProcesses backfillOk backfillThreads
          sessionEnum modulesOk moduleScan filenameRes c).1.map Prod.fst
        ↔ k ∈ sessionEnum.map Prod.fst)) ∧
    ((scan ourPid freshId toolhelp enumProcesses backfillOk backfillThreads
        sessionEnum modulesOk moduleScan filenameRes c).2 = true ↔
      ((toolhelp = none →
        ∀ e ∈ scan_processes_fast enumProcesses ourPid freshId c,
          e.2.threads = [] ∨ backfillOk e.1 = true) ∧
       (∀ e ∈ scan_processes sessionEnum ourPid freshId
          (scanStep1 ourPid freshId toolhelp enumProcesses backfillOk
            backfillThreads c).1,
          modulesOk e.1 = true) ∧
       (∀ e ∈ scan_processes sessionEnum ourPid freshId
          (scanStep1 ourPid freshId toolhelp enumProcesses backfillOk
            backfillThreads c).1,
          pyTruthy (filenameRes e.1) = true))) := by
  constructor
  · intro hne
    simp only [scan, scan_modules, scan_process_filenames]
    rw [mem_keys_map_entry, mem_keys_map_entry]
    exact (scan_processes_membership sessionEnum ourPid freshId _ k).1 hne
  · simp only [scan]
    set c2x := scan_processes sessionEnum ourPid freshId
      (scanStep1 ourPid freshId toolhelp enumProcesses backfillOk
        backfillThreads c).1 with hc2
    rw [Bool.and_eq_true, Bool.and_eq_true]
    have h4 : (scan_process_filenames filenameRes
        (scan_modules modulesOk moduleScan c2x).1).2 = true
        ↔ ∀ e ∈ c2x, pyTruthy (filenameRes e.1) = true := by
      rw [scan_process_filenames, scan_modules]
      simp only [List.all_eq_true]
      exact forall_mem_map_entry c2x _ (fun p => pyTruthy (filenameRes p))
    have h3 : (scan_modules modulesOk moduleScan c2x).2 = true
        ↔ ∀ e ∈ c2x, modulesOk e.1 = true := by
      rw [scan_modules]
      simp [List.all_eq_true]
    have h1 : (scanStep1 ourPid freshId toolhelp enumProcesses backfillOk
        backfillThreads c).2 = true
        ↔ (toolhelp = none →
          ∀ e ∈ scan_processes_fast enumProcesses ourPid freshId c,
            e.2.threads = [] ∨ backfillOk e.1 = true) := by
      cases toolhelp with
      | some pr =>
        rcases pr with ⟨pe, te⟩
        simp [scanStep1]
      | none =>
        simp only [scanStep1]
        simp [List.all_eq_true, List.isEmpty_iff]
    rw [h1, h3, h4]
    tauto

/-- C5 counterexample: with the Toolhelp source throwing, the fast source
reporting pids 1 and 2, the session source reporting only pid 1, and every
later sub-step succeeding, `scan()` returns `True` (the claim says the flag
must be `False` when the Toolhelp source throws) and pid 2 — obtained via
the fast source — is no longer tracked (the claim says the IDs obtainable
via the fast and session sources are still returned). -/
theorem scan_counterexample_toolhelp_failure :
    (scan 0 100 none [1, 2] (fun _ => true) (fun _ => []) [(1, some "a.exe")]
        (fun _ => true) (fun _ => []) (fun _ => some "a.exe") []).2 = true ∧
    ¬ (2 : Nat) ∈ (scan 0 100 none [1, 2] (fun _ => true) (fun _ => [])
        [(1, some "a.exe")] (fun _ => true) (fun _ => []) (fun _ => some "a.exe")
        []).1.map Prod.fst := by
  constructor
  · decide
  · decide

theorem scan_flag_and_session_last_witness :
    ((1 : Nat) ∈ (scan 0 100 none [1, 2] (fun _ => true) (fun _ => [])
        [(1, some "a.exe")] (fun _ => true) (fun _ => []) (fun _ => some "a.exe")
        []).1.map Prod.fst) ∧
    (scan 0 100 none [1] (fun _ => false) (fun _ => [])
        [(1, some "a.exe")] (fun _ => true) (fun _ => []) (fun _ => some "a.exe")
        [(1, { objId := 9, fileName := some "a.exe", threads := [5],
               modules := [], handleRights := none })]).2 = false := by
  constructor
  · exact ((scan_flag_and_session_last 0 100 none [1, 2] (fun _ => true)
      (fun _ => []) [(1, some "a.exe")] (fun _ => true) (fun _ => [])
      (fun _ => some "a.exe") [] 1).1 (by decide)).mpr (by decide)
  · have h := (scan_flag_and_session_last 0 100 none [1] (fun _ => false)
      (fun _ => []) [(1, some "a.exe")] (fun _ => true) (fun _ => [])
      (fun _ => some "a.exe")
      [(1, { objId := 9, fileName := some "a.exe", threads := [5],
             modules := [], handleRights := none })] 0).2
    exact Bool.eq_false_iff.mpr (fun ht => absurd (h.mp ht) (by decide))

theorem scan_processes_fast_frame_witness :
    dictGet (scan_processes_fast [1, 2] 0 50 c10Container) 1
      = dictGet c10Container 1 :=
  (scan_processes_fast_frame [1, 2] 0 50 c10Container 1).1 (by decide) (by decide)
    (by decide)

end WinAppDbg
